import Mathlib

/-!
Shallow embedding of `blob.h` (BlockoS/blob): 8-connected component labelling
with simultaneous contour extraction, after the algorithm of Chang, Chen and Lu.

Modelling conventions:
* `int16_t` quantities (coordinates, dimensions, label values) are modelled as
  unbounded `Int`; every statement below concerns runs whose values stay far
  below `2^15`, where `int16_t` arithmetic agrees with `Int`.
* The mask (`uint8_t *in`) is a total function `Int → Int → Nat` giving the
  pixel value at absolute raster coordinates; the C pointer arithmetic
  `roi_in[x1 + line_stride * y1]` is rendered as `mask (roi_x + x1) (roi_y + y1)`.
* The label buffer is a total function `Int → Int` from the row-major flat
  offset `x + roi_w * y` (as in the C code) to the cell value; `malloc` +
  `memset 0` becomes the constant-zero function.  Reading `*(ptr_label - 1)`
  at the start of a row therefore reads the previous row's last cell, exactly
  as the flat C buffer does.
* Heap allocation is an oracle `Alloc : Nat → Bool` consulted once per
  malloc/realloc attempt, in program order; the state carries the index of the
  next attempt.  `allocOK` is the oracle on which every allocation succeeds.
  The `malloc` of the label buffer itself is modelled as always succeeding
  (the C code checks the wrong pointer, `label` instead of `*label`, after it).
* The `while` loop of `contour_trace` runs on fuel; exhausting the fuel yields
  `none`.  Indexing `(*blobs)[current_label - 1]` with `current_label ≤ 0` or
  beyond the end of the blob array is undefined behaviour in C and also yields
  `none`.
-/

namespace Blob

/-- Allocation oracle: attempt `n` succeeds iff `alloc n = true`. -/
abbrev Alloc := Nat → Bool

/-- The oracle on which every allocation succeeds (normal operation). -/
def allocOK : Alloc := fun _ => true

/-- Input mask: pixel value at absolute raster coordinates. -/
abbrev Mask := Int → Int → Nat

/-- Pointwise update of a label buffer at a flat offset. -/
def setL (label : Int → Int) (off v : Int) : Int → Int :=
  fun o => if o = off then v else label o

/-- Contour: ordered point list plus the allocated capacity (C `contour_t`). -/
structure contour_t where
  points : List (Int × Int)
  capacity : Nat
deriving DecidableEq

/-- A fresh zeroed contour (C `BLOB_MEMSET(..., 0, sizeof(contour_t))`). -/
def emptyContour : contour_t := ⟨[], 0⟩

/-- Blob record (C `blob_t`). -/
structure blob_t where
  label : Int
  external : contour_t
  internal : List contour_t
  internal_count : Nat
deriving DecidableEq

/-- A fresh zeroed blob record (C `BLOB_MEMSET(..., 0, sizeof(blob_t))`). -/
def zeroBlob : blob_t := ⟨0, emptyContour, [], 0⟩

/-- C `contour_add_point`: grow by doubling (initial capacity 32) when full;
    on allocation failure the contour is left unmodified and `none` is
    returned (C returns 0).  The second component is the next oracle index. -/
def contour_add_point (alloc : Alloc) (aIdx : Nat) (c : contour_t) (x y : Int) :
    Option contour_t × Nat :=
  if c.points.length = c.capacity then
    if alloc aIdx then
      (some ⟨c.points ++ [(x, y)], if c.capacity = 0 then 32 else 2 * c.capacity⟩, aIdx + 1)
    else
      (none, aIdx + 1)
  else
    (some ⟨c.points ++ [(x, y)], c.capacity⟩, aIdx)

/-- C `blob_add`: append a zeroed blob record; `none` on allocation failure. -/
def blob_add (alloc : Alloc) (aIdx : Nat) (blobs : List blob_t) :
    Option (List blob_t) × Nat :=
  if alloc aIdx then (some (blobs ++ [zeroBlob]), aIdx + 1) else (none, aIdx + 1)

/-- C `blob_add_internal`: append a zeroed internal contour and increment
    `internal_count`; `none` on allocation failure. -/
def blob_add_internal (alloc : Alloc) (aIdx : Nat) (b : blob_t) :
    Option blob_t × Nat :=
  if alloc aIdx then
    (some { b with internal := b.internal ++ [emptyContour],
                   internal_count := b.internal_count + 1 }, aIdx + 1)
  else
    (none, aIdx + 1)

/-- Neighbour x-offsets, clockwise from east (C table `dx`). -/
def dx (i : Nat) : Int := [1, 1, 0, -1, -1, -1, 0, 1].getD i 0

/-- Neighbour y-offsets, clockwise from east (C table `dy`). -/
def dy (i : Nat) : Int := [0, 1, 1, 1, 0, -1, -1, -1].getD i 0

/-- Next search start after arriving from direction `d`
    (C: `previous = (i+4) & 7; i = (previous + 2) & 7`). -/
def nextSearchStart (d : Nat) : Nat := ((d + 4) % 8 + 2) % 8

/-- The inner 8-neighbour scan of `contour_trace` (the `for(j...)` loop):
    starting at direction index `i`, examine up to `steps` directions in
    clockwise order; skip out-of-ROI neighbours, mark background neighbours
    `-1`, and stop at the first foreground neighbour, labelling it `cur`.
    Returns the updated label buffer, the final direction index, and the
    found neighbour (or `none` if all `steps` directions were rejected). -/
def traceScan (mask : Mask) (rx ry rw rh cur x0 y0 : Int) :
    (Int → Int) → Nat → Nat → (Int → Int) × Nat × Option (Int × Int)
  | label, i, 0 => (label, i, none)
  | label, i, steps + 1 =>
    let x1 := x0 + dx i
    let y1 := y0 + dy i
    let offset := x1 + rw * y1
    if x1 < 0 ∨ rw ≤ x1 ∨ y1 < 0 ∨ rh ≤ y1 then
      traceScan mask rx ry rw rh cur x0 y0 label ((i + 1) % 8) steps
    else if mask (rx + x1) (ry + y1) ≠ 0 then
      (setL label offset cur, i, some (x1, y1))
    else
      traceScan mask rx ry rw rh cur x0 y0 (setL label offset (-1)) ((i + 1) % 8) steps

/-- Append the current walk position to the contour, when one is tracked.
    Returns C's success flag, the contour, and the next oracle index. -/
def appendOpt (alloc : Alloc) (aIdx : Nat) (contour : Option contour_t) (x y : Int) :
    Bool × Option contour_t × Nat :=
  match contour with
  | none => (true, none, aIdx)
  | some c =>
    match contour_add_point alloc aIdx c x y with
    | (none, a') => (false, some c, a')
    | (some c', a') => (true, some c', a')

/-- The `while(!done)` loop of `contour_trace`.  `x y` are the start pixel,
    `x0 y0` the current position, `xx yy` the first accepted neighbour (or
    `-1 -1`).  Returns C's 0/1 result as a `Bool`, the label buffer, the
    contour and the next oracle index; `none` when the fuel runs out. -/
def traceLoop (alloc : Alloc) (mask : Mask) (rx ry rw rh cur x y : Int) :
    Int → Int → Int → Int → Nat → (Int → Int) → Option contour_t → Nat → Nat →
    Option (Bool × (Int → Int) × Option contour_t × Nat)
  | _, _, _, _, _, _, _, _, 0 => none
  | x0, y0, xx, yy, i, label, contour, aIdx, fuel + 1 =>
    match appendOpt alloc aIdx contour (rx + x0) (ry + y0) with
    | (false, contour', aIdx') => some (false, label, contour', aIdx')
    | (true, contour', aIdx') =>
      match traceScan mask rx ry rw rh cur x0 y0 label i 8 with
      | (label', i', found) =>
        match found with
        | none => some (true, label', contour', aIdx')
        | some (x1, y1) =>
          if xx < 0 ∧ yy < 0 then
            traceLoop alloc mask rx ry rw rh cur x y
              x1 y1 x1 y1 (nextSearchStart i') label' contour' aIdx' fuel
          else if x = x0 ∧ xx = x1 ∧ y = y0 ∧ yy = y1 then
            some (true, label', contour', aIdx')
          else
            traceLoop alloc mask rx ry rw rh cur x y
              x1 y1 xx yy (nextSearchStart i') label' contour' aIdx' fuel

/-- C `contour_trace`: label the start pixel, then walk the boundary.
    `external` selects the initial search index (7 for external contours,
    3 for internal ones). -/
def contour_trace (alloc : Alloc) (external : Bool) (cur x y rx ry rw rh : Int)
    (mask : Mask) (label : Int → Int) (contour : Option contour_t)
    (aIdx : Nat) (fuel : Nat) :
    Option (Bool × (Int → Int) × Option contour_t × Nat) :=
  traceLoop alloc mask rx ry rw rh cur x y x y (-1) (-1)
    (if external then 7 else 3) (setL label (x + rw * y) cur) contour aIdx fuel

/-- ROI adjustment at the top of `find_blobs` (lines 384-397): `none` means
    the early no-op return; otherwise the clamped `(roi_x, roi_y, roi_w, roi_h)`.
    Note the height clamp reproduces the source faithfully: it subtracts
    `roi_h`, not `roi_y`, from `in_h`. -/
def clampROI (roi_x roi_y roi_w roi_h in_w in_h : Int) :
    Option (Int × Int × Int × Int) :=
  if in_w ≤ roi_x ∨ in_h ≤ roi_y then
    none
  else
    let rx := if roi_x < 0 then 0 else roi_x
    let ry := if roi_y < 0 then 0 else roi_y
    let rw := if in_w < rx + roi_w then in_w - rx else roi_w
    let rh := if in_h < ry + roi_h then in_h - roi_h else roi_h
    if rw ≤ 0 ∨ rh ≤ 0 then none else some (rx, ry, rw, rh)

/-- Scan-driver state: label buffer, next label, blob registry, next
    allocation-oracle index, and whether the call has already failed
    (C's early `return 0`). -/
structure FBState where
  label : Int → Int
  current : Int
  blobs : List blob_t
  aIdx : Nat
  failed : Bool

/-- Case 1 of the scan (new external contour, lines 427-438): allocate a
    blob, give it the next label, trace its external contour.  The result of
    `contour_trace` is discarded by the C code (line 436). -/
def case1Step (alloc : Alloc) (fuel : Nat) (mask : Mask) (rx ry rw rh : Int)
    (s : FBState) (i j : Int) : Option FBState :=
  match blob_add alloc s.aIdx s.blobs with
  | (none, a') => some { s with aIdx := a', failed := true }
  | (some blobs₁, a') =>
    let blobs₂ := blobs₁.set s.blobs.length
      { blobs₁.getD s.blobs.length zeroBlob with label := s.current }
    match contour_trace alloc true s.current i j rx ry rw rh mask s.label
        (some emptyContour) a' fuel with
    | none => none
    | some (_ret, label', contour', a'') =>
      let blobs₃ := blobs₂.set s.blobs.length
        { blobs₂.getD s.blobs.length zeroBlob with
            external := contour'.getD emptyContour }
      some { label := label', current := s.current + 1, blobs := blobs₃,
             aIdx := a'', failed := false }

/-- Case 2 of the scan (new internal contour, lines 440-463): find the
    owning blob from `current_label`, then either materialise a new internal
    contour (`ext = true`) or only bump the hole count, and trace.  Indexing
    `(*blobs)[current_label - 1]` outside the registry is undefined
    behaviour in C, modelled as `none`; line 462 discards the trace result. -/
def case2Step (alloc : Alloc) (fuel : Nat) (mask : Mask) (rx ry rw rh : Int)
    (ext : Bool) (s : FBState) (i j current_label : Int) : Option FBState :=
  if 1 ≤ current_label ∧ current_label ≤ (s.blobs.length : Int) then
    let bi := (current_label - 1).toNat
    let b := s.blobs.getD bi zeroBlob
    if ext then
      match blob_add_internal alloc s.aIdx b with
      | (none, a') => some { s with aIdx := a', failed := true }
      | (some b', a') =>
        match contour_trace alloc false current_label i j rx ry rw rh mask
            s.label (some emptyContour) a' fuel with
        | none => none
        | some (_ret, label', contour', a'') =>
          let b'' := { b' with
            internal := b'.internal.dropLast ++ [contour'.getD emptyContour] }
          some { s with label := label', blobs := s.blobs.set bi b'', aIdx := a'' }
    else
      let b' := { b with internal_count := b.internal_count + 1 }
      match contour_trace alloc false current_label i j rx ry rw rh mask
          s.label none s.aIdx fuel with
      | none => none
      | some (_ret, label', _c', a'') =>
        some { s with label := label', blobs := s.blobs.set bi b', aIdx := a'' }
  else
    none

/-- One pixel of the raster scan of `find_blobs` (lines 419-469).
    `none` models undefined behaviour (out-of-range blob index) or fuel
    exhaustion inside a trace. -/
def scanStep (alloc : Alloc) (fuel : Nat) (mask : Mask) (rx ry rw rh : Int)
    (extract : Bool) (s : FBState) (p : Int × Int) : Option FBState :=
  let i := p.1
  let j := p.2
  if s.failed then some s else
  if mask (rx + i) (ry + j) = 0 then some s else
  let off := i + rw * j
  let cur := s.label off
  let above_in : Nat := if 0 < j then mask (rx + i) (ry + j - 1) else 0
  let below_in : Nat := if j < rh - 1 then mask (rx + i) (ry + j + 1) else 0
  let below_label : Int := if j < rh - 1 then s.label (off + rw) else -1
  if cur = 0 ∧ above_in = 0 then
    case1Step alloc fuel mask rx ry rw rh s i j
  else if below_in = 0 ∧ below_label = 0 then
    case2Step alloc fuel mask rx ry rw rh extract s i j
      (if cur ≠ 0 then cur else s.label (off - 1))
  else if cur = 0 then
    -- case 3: interior element, label propagated from the left neighbour
    some { s with label := setL s.label off (if 0 < i then s.label (off - 1) else 0) }
  else
    some s

/-- Run the scan over a list of pixels, threading the state. -/
def runScan (step : FBState → Int × Int → Option FBState) :
    FBState → List (Int × Int) → Option FBState
  | s, [] => some s
  | s, q :: qs =>
    match step s q with
    | none => none
    | some s' => runScan step s' qs

/-- Row-major scan order of the clamped ROI (the `for(j) for(i)` nest). -/
def pixels (rw rh : Int) : List (Int × Int) :=
  (List.range (rh.toNat * rw.toNat)).map fun n =>
    (((n % rw.toNat : Nat) : Int), ((n / rw.toNat : Nat) : Int))

/-- Result of `find_blobs`: C's return value, the out-parameters
    `*label, *label_w, *label_h, *blobs` (`*count` is `blobs.length`),
    and the next allocation-oracle index. -/
structure FBResult where
  ret : Bool
  label : Int → Int
  label_w : Int
  label_h : Int
  blobs : List blob_t
  aIdx : Nat

/-- C `find_blobs`.  `label0, label_w0, label_h0` are the caller's prior
    values of the output parameters (returned unchanged on the no-op paths).
    `none` models undefined behaviour or trace-fuel exhaustion. -/
def find_blobs (alloc : Alloc) (fuel : Nat) (roi_x roi_y roi_w roi_h : Int)
    (mask : Mask) (in_w in_h : Int) (label0 : Int → Int)
    (label_w0 label_h0 : Int) (extract_internal : Bool) : Option FBResult :=
  match clampROI roi_x roi_y roi_w roi_h in_w in_h with
  | none => some ⟨true, label0, label_w0, label_h0, [], 0⟩
  | some (rx, ry, rw, rh) =>
    match runScan (scanStep alloc fuel mask rx ry rw rh extract_internal)
        ⟨fun _ => 0, 1, [], 0, false⟩ (pixels rw rh) with
    | none => none
    | some s => some ⟨!s.failed, s.label, rw, rh, s.blobs, s.aIdx⟩

/-! ## Concrete fixtures used by witnesses and counterexamples -/

/-- Build a mask from a row-major value list of width `w`. -/
def maskOfList (w : Int) (bits : List Nat) : Mask :=
  fun x y => if 0 ≤ x ∧ x < w ∧ 0 ≤ y then bits.getD (x + w * y).toNat 0 else 0

/-- 4×3 pinch mask: one 8-connected component whose pixel (2,1) the scan
    never labels. -/
def mask43 : Mask := maskOfList 4 [0,1,1,0, 1,0,1,1, 0,1,1,0]

/-- 3×4 mask on which one 8-connected component receives two labels and
    cells labelled 1 are later overwritten with 2. -/
def mask34 : Mask := maskOfList 3 [0,1,0, 1,0,1, 1,1,1, 0,1,0]

/-- 3×3 ring: one blob with a single one-pixel hole. -/
def maskRing : Mask := maskOfList 3 [1,1,1, 1,0,1, 1,1,1]

/-- A single foreground pixel at the origin. -/
def maskDot : Mask := maskOfList 1 [1]

/-- 3×1 mask with two isolated foreground pixels (two blobs). -/
def maskTwoDots : Mask := maskOfList 3 [1,0,1]

/-- The everywhere-zero prior label buffer handed to `find_blobs`. -/
def zeroLabel : Int → Int := fun _ => 0

/-- A junk `FBResult` used only as the default of `Option.getD`. -/
def noResult : FBResult := ⟨false, zeroLabel, 0, 0, [], 0⟩

/-! ## Generic helper lemmas -/

theorem some_getD {α : Type} (o : Option α) (d : α) (h : o.isSome = true) :
    o = some (o.getD d) := by
  cases o with
  | none => simp at h
  | some a => rfl

theorem getD_append_lt {α : Type} (l l' : List α) (d : α) :
    ∀ k, k < l.length → (l ++ l').getD k d = l.getD k d := by
  induction l with
  | nil => intro k hk; simp at hk
  | cons a t ih =>
    intro k hk
    cases k with
    | zero => rfl
    | succ n =>
      simp only [List.cons_append, List.getD_cons_succ]
      exact ih n (by simp at hk; omega)

theorem getD_append_len {α : Type} (l : List α) (a d : α) :
    (l ++ [a]).getD l.length d = a := by
  induction l with
  | nil => rfl
  | cons b t ih => simpa using ih

theorem getD_set_self {α : Type} (l : List α) (k : Nat) (a d : α)
    (h : k < l.length) : (l.set k a).getD k d = a := by
  induction l generalizing k with
  | nil => simp at h
  | cons b t ih =>
    cases k with
    | zero => rfl
    | succ n =>
      simp only [List.set, List.getD_cons_succ]
      exact ih n (by simpa using h)

theorem getD_set_ne {α : Type} (l : List α) (k m : Nat) (a d : α)
    (h : k ≠ m) : (l.set k a).getD m d = l.getD m d := by
  induction l generalizing k m with
  | nil => simp [List.set]
  | cons b t ih =>
    cases k with
    | zero =>
      cases m with
      | zero => exact absurd rfl h
      | succ n => rfl
    | succ n =>
      cases m with
      | zero => rfl
      | succ n' =>
        simp only [List.set, List.getD_cons_succ]
        exact ih n n' (fun he => h (by rw [he]))

/-- Row-major flat offsets are injective on the ROI. -/
theorem offset_inj {rw x1 y1 x2 y2 : Int} (hw : 0 < rw)
    (h1 : 0 ≤ x1) (h2 : x1 < rw) (h3 : 0 ≤ x2) (h4 : x2 < rw)
    (h : x1 + rw * y1 = x2 + rw * y2) : x1 = x2 ∧ y1 = y2 := by
  have heq : rw * (y2 - y1) = x1 - x2 := by
    have := mul_sub rw y2 y1
    linarith
  by_cases hy : y1 = y2
  · subst hy
    constructor
    · linarith
    · rfl
  · exfalso
    have h1a : 1 ≤ |y2 - y1| := Int.one_le_abs (sub_ne_zero.mpr (fun he => hy he.symm))
    have h2a : rw ≤ |rw * (y2 - y1)| := by
      rw [abs_mul, abs_of_pos hw]
      calc rw = rw * 1 := by ring
        _ ≤ rw * |y2 - y1| := mul_le_mul_of_nonneg_left h1a hw.le
    have h3a : |x1 - x2| < rw := abs_lt.mpr ⟨by linarith, by linarith⟩
    rw [heq] at h2a
    linarith

theorem dx_bounds : ∀ i, i < 8 → -1 ≤ dx i ∧ dx i ≤ 1 := by decide

theorem dy_bounds : ∀ i, i < 8 → -1 ≤ dy i ∧ dy i ≤ 1 := by decide

theorem dxdy_ne_zero : ∀ i, i < 8 → ¬(dx i = 0 ∧ dy i = 0) := by decide

/-- Invariant preservation through the scan driver. -/
theorem runScan_inv (step : FBState → Int × Int → Option FBState)
    (P : FBState → Prop) :
    ∀ (ps : List (Int × Int)) (s s' : FBState),
    (∀ q t t', q ∈ ps → step t q = some t' → P t → P t') →
    runScan step s ps = some s' → P s → P s' := by
  intro ps
  induction ps with
  | nil =>
    intro s s' _ h hP
    simp only [runScan] at h
    cases h
    exact hP
  | cons q qs ih =>
    intro s s' hq h hP
    simp only [runScan] at h
    cases hstep : step s q with
    | none => rw [hstep] at h; exact absurd h (by simp)
    | some t =>
      rw [hstep] at h
      exact ih t s' (fun q' u u' hm => hq q' u u' (List.mem_cons_of_mem _ hm))
        h (hq q s t (List.mem_cons_self q qs) hstep hP)

/-- Splitting a scan run over an appended pixel list. -/
theorem runScan_append (step : FBState → Int × Int → Option FBState) :
    ∀ (l1 l2 : List (Int × Int)) (s : FBState),
    runScan step s (l1 ++ l2) =
      (runScan step s l1).bind (fun t => runScan step t l2) := by
  intro l1
  induction l1 with
  | nil => intro l2 s; rfl
  | cons q qs ih =>
    intro l2 s
    simp only [List.cons_append, runScan]
    cases step s q with
    | none => rfl
    | some t => exact ih l2 t

/-- Every scanned pixel lies in the clamped ROI. -/
theorem pixels_mem {rw rh : Int} {p : Int × Int} (h : p ∈ pixels rw rh) :
    0 ≤ p.1 ∧ p.1 < rw ∧ 0 ≤ p.2 ∧ p.2 < rh := by
  rcases List.mem_map.mp h with ⟨n, hn, rfl⟩
  have hn' : n < rh.toNat * rw.toNat := List.mem_range.mp hn
  have hw : 0 < rw.toNat := by
    rcases Nat.eq_zero_or_pos rw.toNat with h0 | h0
    · rw [h0, Nat.mul_zero] at hn'
      exact absurd hn' (Nat.not_lt_zero n)
    · exact h0
  have hh : 0 < rh.toNat := by
    rcases Nat.eq_zero_or_pos rh.toNat with h0 | h0
    · rw [h0, Nat.zero_mul] at hn'
      exact absurd hn' (Nat.not_lt_zero n)
    · exact h0
  have hx : n % rw.toNat < rw.toNat := Nat.mod_lt _ hw
  have hy : n / rw.toNat < rh.toNat := (Nat.div_lt_iff_lt_mul hw).mpr hn'
  refine ⟨Int.ofNat_nonneg _, ?_, Int.ofNat_nonneg _, ?_⟩
  · calc ((n % rw.toNat : Nat) : Int) < (rw.toNat : Int) := by exact_mod_cast hx
      _ = rw := Int.toNat_of_nonneg (by omega)
  · calc ((n / rw.toNat : Nat) : Int) < (rh.toNat : Int) := by exact_mod_cast hy
      _ = rh := Int.toNat_of_nonneg (by omega)

theorem set_append_len {α : Type} (l : List α) (a b : α) :
    (l ++ [a]).set l.length b = l ++ [b] := by
  induction l with
  | nil => rfl
  | cons c t ih => simpa using ih

/-- Case 1 either fails the call leaving the registry alone, or appends one
    new blob carrying the label `s.current`. -/
theorem case1Step_blobs (alloc : Alloc) (fuel : Nat) (mask : Mask)
    (rx ry rw rh : Int) (s : FBState) (i j : Int) (s' : FBState)
    (h : case1Step alloc fuel mask rx ry rw rh s i j = some s') :
    (s'.blobs = s.blobs ∧ s'.current = s.current) ∨
    (∃ e, s'.blobs = s.blobs ++ [⟨s.current, e, [], 0⟩] ∧
      s'.current = s.current + 1) := by
  unfold case1Step blob_add at h
  by_cases ha : alloc s.aIdx = true
  · rw [if_pos ha] at h
    dsimp only at h
    cases hct : contour_trace alloc true s.current i j rx ry rw rh mask s.label
        (some emptyContour) (s.aIdx + 1) fuel with
    | none => rw [hct] at h; exact Option.noConfusion h
    | some t =>
      obtain ⟨ret, label', contour', a''⟩ := t
      rw [hct] at h
      simp only [getD_append_len, set_append_len] at h
      cases h
      exact Or.inr ⟨contour'.getD emptyContour, rfl, rfl⟩
  · rw [if_neg ha] at h
    cases h
    exact Or.inl ⟨rfl, rfl⟩

/-- Case 2 either fails the call leaving the registry alone, or updates the
    single owning blob: with extraction it gains one internal contour and one
    hole count, without it only the hole count. -/
theorem case2Step_blobs (alloc : Alloc) (fuel : Nat) (mask : Mask)
    (rx ry rw rh : Int) (ext : Bool) (s : FBState) (i j cl : Int) (s' : FBState)
    (h : case2Step alloc fuel mask rx ry rw rh ext s i j cl = some s') :
    (s'.blobs = s.blobs ∧ s'.current = s.current) ∨
    (∃ bi c, bi < s.blobs.length ∧ s'.current = s.current ∧
      ((ext = true ∧
         s'.blobs = s.blobs.set bi
           { s.blobs.getD bi zeroBlob with
               internal := (s.blobs.getD bi zeroBlob).internal ++ [c],
               internal_count := (s.blobs.getD bi zeroBlob).internal_count + 1 }) ∨
       (ext = false ∧
         s'.blobs = s.blobs.set bi
           { s.blobs.getD bi zeroBlob with
               internal_count := (s.blobs.getD bi zeroBlob).internal_count + 1 }))) := by
  unfold case2Step at h
  by_cases hg : 1 ≤ cl ∧ cl ≤ (s.blobs.length : Int)
  · rw [if_pos hg] at h
    have hbi : (cl - 1).toNat < s.blobs.length := by omega
    cases ext with
    | true =>
      rw [if_pos rfl] at h
      unfold blob_add_internal at h
      by_cases ha : alloc s.aIdx = true
      · rw [if_pos ha] at h
        dsimp only at h
        cases hct : contour_trace alloc false cl i j rx ry rw rh mask s.label
            (some emptyContour) (s.aIdx + 1) fuel with
        | none => rw [hct] at h; exact Option.noConfusion h
        | some t =>
          obtain ⟨ret, label', contour', a''⟩ := t
          rw [hct] at h
          cases h
          refine Or.inr ⟨(cl - 1).toNat, contour'.getD emptyContour, hbi, rfl,
            Or.inl ⟨rfl, ?_⟩⟩
          simp [List.dropLast_concat]
      · rw [if_neg ha] at h
        cases h
        exact Or.inl ⟨rfl, rfl⟩
    | false =>
      rw [if_neg (by simp)] at h
      cases hct : contour_trace alloc false cl i j rx ry rw rh mask s.label
          none s.aIdx fuel with
      | none => rw [hct] at h; exact Option.noConfusion h
      | some t =>
        obtain ⟨ret, label', contour', a''⟩ := t
        rw [hct] at h
        cases h
        exact Or.inr ⟨(cl - 1).toNat, emptyContour, hbi, rfl, Or.inr ⟨rfl, rfl⟩⟩
  · rw [if_neg hg] at h
    exact Option.noConfusion h

/-- How one scan step transforms the blob registry: it is unchanged, or a
    new blob labelled `s.current` is appended (case 1), or one existing
    blob gains an internal contour / hole count (case 2). -/
theorem scanStep_blobs (alloc : Alloc) (fuel : Nat) (mask : Mask)
    (rx ry rw rh : Int) (ext : Bool) (s : FBState) (p : Int × Int) (s' : FBState)
    (h : scanStep alloc fuel mask rx ry rw rh ext s p = some s') :
    (s'.blobs = s.blobs ∧ s'.current = s.current) ∨
    (∃ e, s'.blobs = s.blobs ++ [⟨s.current, e, [], 0⟩] ∧
      s'.current = s.current + 1) ∨
    (∃ bi c, bi < s.blobs.length ∧ s'.current = s.current ∧
      ((ext = true ∧
         s'.blobs = s.blobs.set bi
           { s.blobs.getD bi zeroBlob with
               internal := (s.blobs.getD bi zeroBlob).internal ++ [c],
               internal_count := (s.blobs.getD bi zeroBlob).internal_count + 1 }) ∨
       (ext = false ∧
         s'.blobs = s.blobs.set bi
           { s.blobs.getD bi zeroBlob with
               internal_count := (s.blobs.getD bi zeroBlob).internal_count + 1 }))) := by
  simp only [scanStep] at h
  by_cases hf : s.failed = true
  · rw [if_pos hf] at h; cases h; exact Or.inl ⟨rfl, rfl⟩
  rw [if_neg hf] at h
  by_cases hm : mask (rx + p.1) (ry + p.2) = 0
  · rw [if_pos hm] at h; cases h; exact Or.inl ⟨rfl, rfl⟩
  rw [if_neg hm] at h
  by_cases h1 : s.label (p.1 + rw * p.2) = 0 ∧
      (if 0 < p.2 then mask (rx + p.1) (ry + p.2 - 1) else 0) = 0
  · rw [if_pos h1] at h
    rcases case1Step_blobs _ _ _ _ _ _ _ _ _ _ _ h with ha | hb
    · exact Or.inl ha
    · exact Or.inr (Or.inl hb)
  rw [if_neg h1] at h
  by_cases h2 : (if p.2 < rh - 1 then mask (rx + p.1) (ry + p.2 + 1) else 0) = 0 ∧
      (if p.2 < rh - 1 then s.label (p.1 + rw * p.2 + rw) else -1) = 0
  · rw [if_pos h2] at h
    rcases case2Step_blobs _ _ _ _ _ _ _ _ _ _ _ _ _ h with ha | hb
    · exact Or.inl ha
    · exact Or.inr (Or.inr hb)
  rw [if_neg h2] at h
  by_cases h3 : s.label (p.1 + rw * p.2) = 0
  · rw [if_pos h3] at h; cases h; exact Or.inl ⟨rfl, rfl⟩
  · rw [if_neg h3] at h; cases h; exact Or.inl ⟨rfl, rfl⟩

/-- Inversion of `find_blobs`: either the no-op path was taken, or the scan
    ran to a final state that furnishes the result. -/
theorem find_blobs_inversion {alloc : Alloc} {fuel : Nat}
    {roi_x roi_y roi_w roi_h : Int} {mask : Mask} {in_w in_h : Int}
    {label0 : Int → Int} {lw0 lh0 : Int} {ext : Bool} {r : FBResult}
    (h : find_blobs alloc fuel roi_x roi_y roi_w roi_h mask in_w in_h
      label0 lw0 lh0 ext = some r) :
    (clampROI roi_x roi_y roi_w roi_h in_w in_h = none ∧
      r = ⟨true, label0, lw0, lh0, [], 0⟩) ∨
    (∃ rx ry rw rh s,
      clampROI roi_x roi_y roi_w roi_h in_w in_h = some (rx, ry, rw, rh) ∧
      runScan (scanStep alloc fuel mask rx ry rw rh ext)
        ⟨fun _ => 0, 1, [], 0, false⟩ (pixels rw rh) = some s ∧
      r = ⟨!s.failed, s.label, rw, rh, s.blobs, s.aIdx⟩) := by
  unfold find_blobs at h
  cases hc : clampROI roi_x roi_y roi_w roi_h in_w in_h with
  | none =>
    rw [hc] at h
    cases h
    exact Or.inl ⟨rfl, rfl⟩
  | some t =>
    obtain ⟨rx, ry, rw, rh⟩ := t
    rw [hc] at h
    dsimp only at h
    cases hrun : runScan (scanStep alloc fuel mask rx ry rw rh ext)
        ⟨fun _ => 0, 1, [], 0, false⟩ (pixels rw rh) with
    | none => rw [hrun] at h; exact Option.noConfusion h
    | some s =>
      rw [hrun] at h
      cases h
      exact Or.inr ⟨rx, ry, rw, rh, s, rfl, hrun, rfl⟩

/-- Scan invariant: the next label always exceeds the registry size by one,
    and the blob at index `k` carries label `k + 1`. -/
def labelsSeq (s : FBState) : Prop :=
  s.current = (s.blobs.length : Int) + 1 ∧
  ∀ k, k < s.blobs.length → (s.blobs.getD k zeroBlob).label = (k : Int) + 1

theorem scanStep_labelsSeq (alloc : Alloc) (fuel : Nat) (mask : Mask)
    (rx ry rw rh : Int) (ext : Bool) (s : FBState) (p : Int × Int) (s' : FBState)
    (h : scanStep alloc fuel mask rx ry rw rh ext s p = some s')
    (hP : labelsSeq s) : labelsSeq s' := by
  rcases scanStep_blobs _ _ _ _ _ _ _ _ _ _ _ h with ⟨hb, hc⟩ | ⟨e, hb, hc⟩ |
    ⟨bi, c, hbi, hc, hcase⟩
  · exact ⟨by rw [hc, hb]; exact hP.1, by rw [hb]; exact hP.2⟩
  · constructor
    · rw [hc, hb, List.length_append]
      simp only [List.length_singleton]
      push_cast
      linarith [hP.1]
    · intro k hk
      rw [hb] at hk ⊢
      rw [List.length_append, List.length_singleton] at hk
      rcases Nat.lt_or_ge k s.blobs.length with hlt | hge
      · rw [getD_append_lt _ _ _ _ hlt]
        exact hP.2 k hlt
      · have hke : k = s.blobs.length := by omega
        subst hke
        rw [getD_append_len]
        exact hP.1
  · have hlen : s'.blobs.length = s.blobs.length := by
      rcases hcase with ⟨_, hb⟩ | ⟨_, hb⟩ <;> rw [hb, List.length_set]
    constructor
    · rw [hc, hlen]; exact hP.1
    · intro k hk
      rw [hlen] at hk
      rcases hcase with ⟨_, hb⟩ | ⟨_, hb⟩ <;> rw [hb] <;>
        by_cases hkb : bi = k
      · subst hkb
        rw [getD_set_self _ _ _ _ hbi]
        exact hP.2 bi hbi
      · rw [getD_set_ne _ _ _ _ _ hkb]
        exact hP.2 k hk
      · subst hkb
        rw [getD_set_self _ _ _ _ hbi]
        exact hP.2 bi hbi
      · rw [getD_set_ne _ _ _ _ _ hkb]
        exact hP.2 k hk

/-! ## Claim C3 -/

/-- C3: blob labels are assigned in strictly increasing order of discovery
    starting at 1: after any `find_blobs` call the blob at registry index `k`
    carries label `k + 1`, so a run producing `N` blobs uses exactly the
    labels `1..N`, each once, in discovery order. -/
theorem c3_labels_sequential :
    ∀ (alloc : Alloc) (fuel : Nat) (roi_x roi_y roi_w roi_h : Int) (mask : Mask)
      (in_w in_h : Int) (label0 : Int → Int) (lw0 lh0 : Int) (ext : Bool)
      (r : FBResult),
      find_blobs alloc fuel roi_x roi_y roi_w roi_h mask in_w in_h
        label0 lw0 lh0 ext = some r →
      ∀ k, k < r.blobs.length → (r.blobs.getD k zeroBlob).label = (k : Int) + 1 := by
  intro alloc fuel roi_x roi_y roi_w roi_h mask in_w in_h label0 lw0 lh0 ext r h
  rcases find_blobs_inversion h with ⟨_, hr⟩ | ⟨rx, ry, rw, rh, s, _, hrun, hr⟩
  · subst hr
    intro k hk
    exact absurd hk (by simp)
  · subst hr
    have hinv : labelsSeq s := by
      refine runScan_inv _ labelsSeq (pixels rw rh) _ s
        (fun q t t' _ hst hP => scanStep_labelsSeq _ _ _ _ _ _ _ _ _ _ _ hst hP)
        hrun ⟨by simp, ?_⟩
      intro k hk
      exact absurd hk (by simp)
    exact hinv.2

/-- Witness for C3: the 3×1 two-dot mask yields two blobs; the blob at
    index 1 carries label 2. -/
theorem c3_labels_sequential_witness :
    (find_blobs allocOK 20 0 0 3 1 maskTwoDots 3 1 zeroLabel 0 0 false).isSome
      = true ∧
    (((find_blobs allocOK 20 0 0 3 1 maskTwoDots 3 1 zeroLabel 0 0
        false).getD noResult).blobs.getD 1 zeroBlob).label = (1 : Int) + 1 :=
  ⟨by decide,
   c3_labels_sequential allocOK 20 0 0 3 1 maskTwoDots 3 1 zeroLabel 0 0 false _
     (some_getD _ noResult (by decide)) 1 (by decide)⟩

/-- Scan invariant for C10: without extraction no internal contour is ever
    materialised; with extraction the materialised internal contours match
    the hole count. -/
def internalsOK (ext : Bool) (s : FBState) : Prop :=
  ∀ k, k < s.blobs.length →
    (ext = false → (s.blobs.getD k zeroBlob).internal = []) ∧
    (ext = true → (s.blobs.getD k zeroBlob).internal.length =
      (s.blobs.getD k zeroBlob).internal_count)

theorem scanStep_internalsOK (alloc : Alloc) (fuel : Nat) (mask : Mask)
    (rx ry rw rh : Int) (ext : Bool) (s : FBState) (p : Int × Int) (s' : FBState)
    (h : scanStep alloc fuel mask rx ry rw rh ext s p = some s')
    (hP : internalsOK ext s) : internalsOK ext s' := by
  rcases scanStep_blobs _ _ _ _ _ _ _ _ _ _ _ h with ⟨hb, _⟩ | ⟨e, hb, _⟩ |
    ⟨bi, c, hbi, _, hcase⟩
  · rw [internalsOK, hb]; exact hP
  · intro k hk
    rw [hb] at hk ⊢
    rw [List.length_append, List.length_singleton] at hk
    rcases Nat.lt_or_ge k s.blobs.length with hlt | hge
    · rw [getD_append_lt _ _ _ _ hlt]
      exact hP k hlt
    · have hke : k = s.blobs.length := by omega
      subst hke
      rw [getD_append_len]
      exact ⟨fun _ => rfl, fun _ => rfl⟩
  · intro k hk
    rcases hcase with ⟨hext, hb⟩ | ⟨hext, hb⟩ <;> rw [hb] at hk ⊢ <;>
      rw [List.length_set] at hk <;> by_cases hkb : bi = k
    · subst hkb
      rw [getD_set_self _ _ _ _ hbi]
      refine ⟨fun hf => by rw [hext] at hf; exact Bool.noConfusion hf, fun _ => ?_⟩
      have := (hP bi hbi).2 hext
      simp only [List.length_append, List.length_singleton]
      omega
    · rw [getD_set_ne _ _ _ _ _ hkb]
      exact hP k hk
    · subst hkb
      rw [getD_set_self _ _ _ _ hbi]
      refine ⟨fun _ => (hP bi hbi).1 hext, fun ht => ?_⟩
      rw [hext] at ht
      exact Bool.noConfusion ht
    · rw [getD_set_ne _ _ _ _ _ hkb]
      exact hP k hk

/-! ## Claim C10 -/

/-- C10: with `extract_internal = 0` every returned blob's internal contour
    array stays empty (NULL) even when its hole count is positive; with
    `extract_internal = 1` the materialised internal contours equal the hole
    count, so the array is non-empty exactly when at least one hole was
    found. -/
theorem c10_internal_materialisation :
    ∀ (alloc : Alloc) (fuel : Nat) (roi_x roi_y roi_w roi_h : Int) (mask : Mask)
      (in_w in_h : Int) (label0 : Int → Int) (lw0 lh0 : Int) (ext : Bool)
      (r : FBResult),
      find_blobs alloc fuel roi_x roi_y roi_w roi_h mask in_w in_h
        label0 lw0 lh0 ext = some r →
      ∀ k, k < r.blobs.length →
        (ext = false → (r.blobs.getD k zeroBlob).internal = []) ∧
        (ext = true → (r.blobs.getD k zeroBlob).internal.length =
          (r.blobs.getD k zeroBlob).internal_count) := by
  intro alloc fuel roi_x roi_y roi_w roi_h mask in_w in_h label0 lw0 lh0 ext r h
  rcases find_blobs_inversion h with ⟨_, hr⟩ | ⟨rx, ry, rw, rh, s, _, hrun, hr⟩
  · subst hr
    intro k hk
    exact absurd hk (by simp)
  · subst hr
    refine runScan_inv _ (internalsOK ext) (pixels rw rh) _ s
      (fun q t t' _ hst hP => scanStep_internalsOK _ _ _ _ _ _ _ _ _ _ _ hst hP)
      hrun ?_
    intro k hk
    exact absurd hk (by simp)

/-- Witness for C10: on the 3×3 ring with `extract_internal = 0` the single
    blob reports one hole (`internal_count = 1`, checked by evaluation)
    while its internal contour list stays empty. -/
theorem c10_internal_materialisation_witness :
    (find_blobs allocOK 40 0 0 3 3 maskRing 3 3 zeroLabel 0 0 false).isSome
      = true ∧
    (((find_blobs allocOK 40 0 0 3 3 maskRing 3 3 zeroLabel 0 0
        false).getD noResult).blobs.getD 0 zeroBlob).internal_count = 1 ∧
    (((find_blobs allocOK 40 0 0 3 3 maskRing 3 3 zeroLabel 0 0
        false).getD noResult).blobs.getD 0 zeroBlob).internal = [] :=
  ⟨by decide, by decide,
   ((c10_internal_materialisation allocOK 40 0 0 3 3 maskRing 3 3 zeroLabel 0 0
       false _ (some_getD _ noResult (by decide)) 0 (by decide)).1 rfl)⟩

/-- Write classification and found-neighbour specification for the inner
    8-neighbour scan: every cell it changes is an in-ROI neighbour of the
    current position, set to `cur` if foreground and to `-1` if background;
    a found neighbour is an in-ROI foreground neighbour. -/
theorem traceScan_spec (mask : Mask) (rx ry rw rh cur x0 y0 : Int) :
    ∀ (steps : Nat) (label : Int → Int) (i : Nat), i < 8 →
    (∀ off, (traceScan mask rx ry rw rh cur x0 y0 label i steps).1 off ≠ label off →
      ∃ x1 y1 d, d < 8 ∧ x1 = x0 + dx d ∧ y1 = y0 + dy d ∧
        off = x1 + rw * y1 ∧ 0 ≤ x1 ∧ x1 < rw ∧ 0 ≤ y1 ∧ y1 < rh ∧
        ((mask (rx + x1) (ry + y1) ≠ 0 ∧
          (traceScan mask rx ry rw rh cur x0 y0 label i steps).1 off = cur) ∨
         (mask (rx + x1) (ry + y1) = 0 ∧
          (traceScan mask rx ry rw rh cur x0 y0 label i steps).1 off = -1))) ∧
    (∀ x1 y1,
      (traceScan mask rx ry rw rh cur x0 y0 label i steps).2.2 = some (x1, y1) →
      ∃ d, d < 8 ∧ x1 = x0 + dx d ∧ y1 = y0 + dy d ∧
        0 ≤ x1 ∧ x1 < rw ∧ 0 ≤ y1 ∧ y1 < rh ∧ mask (rx + x1) (ry + y1) ≠ 0) := by
  intro steps
  induction steps with
  | zero =>
    intro label i hi
    constructor
    · intro off hoff
      exact absurd rfl hoff
    · intro x1 y1 hf
      exact Option.noConfusion hf
  | succ steps ih =>
    intro label i hi
    simp only [traceScan]
    by_cases hoor : x0 + dx i < 0 ∨ rw ≤ x0 + dx i ∨ y0 + dy i < 0 ∨ rh ≤ y0 + dy i
    · rw [if_pos hoor]
      exact ih label ((i + 1) % 8) (Nat.mod_lt _ (by norm_num))
    · rw [if_neg hoor]
      push_neg at hoor
      obtain ⟨hb1, hb2, hb3, hb4⟩ := hoor
      by_cases hfg : mask (rx + (x0 + dx i)) (ry + (y0 + dy i)) ≠ 0
      · rw [if_pos hfg]
        constructor
        · intro off hoff
          by_cases he : off = x0 + dx i + rw * (y0 + dy i)
          · exact ⟨x0 + dx i, y0 + dy i, i, hi, rfl, rfl, he, by omega, by omega,
              by omega, by omega, Or.inl ⟨hfg, by simp [setL, he]⟩⟩
          · exact absurd (by simp [setL, he]) hoff
        · intro x1 y1 hf
          injection hf with hf
          injection hf with hf1 hf2
          exact ⟨i, hi, hf1.symm, hf2.symm, by omega, by omega, by omega, by omega,
            by rw [hf1, hf2] at hfg; exact hfg⟩
      · rw [if_neg hfg]
        push_neg at hfg
        have ihr := ih (setL label (x0 + dx i + rw * (y0 + dy i)) (-1)) ((i + 1) % 8)
          (Nat.mod_lt _ (by norm_num))
        constructor
        · intro off hoff
          by_cases hch : (traceScan mask rx ry rw rh cur x0 y0
              (setL label (x0 + dx i + rw * (y0 + dy i)) (-1)) ((i + 1) % 8)
              steps).1 off =
              setL label (x0 + dx i + rw * (y0 + dy i)) (-1) off
          · rw [hch] at hoff ⊢
            by_cases he : off = x0 + dx i + rw * (y0 + dy i)
            · exact ⟨x0 + dx i, y0 + dy i, i, hi, rfl, rfl, he, by omega, by omega,
                by omega, by omega, Or.inr ⟨hfg, by simp [setL, he]⟩⟩
            · exact absurd (by simp [setL, he]) hoff
          · exact ihr.1 off hch
        · intro x1 y1 hf
          exact ihr.2 x1 y1 hf

/-- Classification of the label-buffer writes of a trace started at
    `(sx, sy)` with label `cur`: every changed cell is an in-ROI cell;
    foreground cells are set to `cur` and are the start pixel or 8-adjacent
    to a distinct in-ROI foreground cell; background cells are set to `-1`. -/
def labelWrites (mask : Mask) (rx ry rw rh cur sx sy : Int)
    (l0 l1 : Int → Int) : Prop :=
  ∀ off, l1 off ≠ l0 off →
    ∃ x1 y1, off = x1 + rw * y1 ∧ 0 ≤ x1 ∧ x1 < rw ∧ 0 ≤ y1 ∧ y1 < rh ∧
      ((mask (rx + x1) (ry + y1) ≠ 0 ∧ l1 off = cur ∧
        ((x1 = sx ∧ y1 = sy) ∨
          ∃ x2 y2, 0 ≤ x2 ∧ x2 < rw ∧ 0 ≤ y2 ∧ y2 < rh ∧
            mask (rx + x2) (ry + y2) ≠ 0 ∧ (x2 ≠ x1 ∨ y2 ≠ y1) ∧
            x1 - x2 ≤ 1 ∧ x2 - x1 ≤ 1 ∧ y1 - y2 ≤ 1 ∧ y2 - y1 ≤ 1)) ∨
       (mask (rx + x1) (ry + y1) = 0 ∧ l1 off = -1))

theorem labelWrites_refl (mask : Mask) (rx ry rw rh cur sx sy : Int)
    (l : Int → Int) : labelWrites mask rx ry rw rh cur sx sy l l := by
  intro off hoff
  exact absurd rfl hoff

theorem labelWrites_trans {mask : Mask} {rx ry rw rh cur sx sy : Int}
    {l0 l1 l2 : Int → Int}
    (h1 : labelWrites mask rx ry rw rh cur sx sy l0 l1)
    (h2 : labelWrites mask rx ry rw rh cur sx sy l1 l2) :
    labelWrites mask rx ry rw rh cur sx sy l0 l2 := by
  intro off hoff
  by_cases hc : l2 off = l1 off
  · rcases h1 off (by rw [← hc]; exact hoff) with
      ⟨x1, y1, hdec, b1, b2, b3, b4, ⟨hm, hv, hadj⟩ | ⟨hm, hv⟩⟩
    · exact ⟨x1, y1, hdec, b1, b2, b3, b4, Or.inl ⟨hm, by rw [hc, hv], hadj⟩⟩
    · exact ⟨x1, y1, hdec, b1, b2, b3, b4, Or.inr ⟨hm, by rw [hc, hv]⟩⟩
  · exact h2 off hc

/-- The initial write `label[start] = current` of `contour_trace`. -/
theorem setL_start_writes (mask : Mask) (rx ry rw rh cur x y : Int)
    (label : Int → Int) (hx1 : 0 ≤ x) (hx2 : x < rw) (hy1 : 0 ≤ y) (hy2 : y < rh)
    (hfg : mask (rx + x) (ry + y) ≠ 0) :
    labelWrites mask rx ry rw rh cur x y label (setL label (x + rw * y) cur) := by
  intro off hoff
  by_cases he : off = x + rw * y
  · exact ⟨x, y, he, hx1, hx2, hy1, hy2,
      Or.inl ⟨hfg, by simp [setL, he], Or.inl ⟨rfl, rfl⟩⟩⟩
  · exact absurd (by simp [setL, he]) hoff

/-- The inner scan's writes fit the classification (all its foreground
    writes are adjacent to the current, foreground, walk position). -/
theorem traceScan_labelWrites (mask : Mask) (rx ry rw rh cur sx sy x0 y0 : Int)
    (label : Int → Int) (i steps : Nat) (hi : i < 8)
    (hx1 : 0 ≤ x0) (hx2 : x0 < rw) (hy1 : 0 ≤ y0) (hy2 : y0 < rh)
    (hfg : mask (rx + x0) (ry + y0) ≠ 0) :
    labelWrites mask rx ry rw rh cur sx sy label
      (traceScan mask rx ry rw rh cur x0 y0 label i steps).1 := by
  intro off hoff
  rcases (traceScan_spec mask rx ry rw rh cur x0 y0 steps label i hi).1 off hoff
    with ⟨x1, y1, d, hd, hdx, hdy, hdec, b1, b2, b3, b4, ⟨hm, hv⟩ | ⟨hm, hv⟩⟩
  · refine ⟨x1, y1, hdec, b1, b2, b3, b4, Or.inl ⟨hm, hv, Or.inr
      ⟨x0, y0, hx1, hx2, hy1, hy2, hfg, ?_, ?_, ?_, ?_, ?_⟩⟩⟩
    · have hne := dxdy_ne_zero d hd
      by_contra hcon
      push_neg at hcon
      exact hne ⟨by omega, by omega⟩
    · have := (dx_bounds d hd)
      omega
    · have := (dx_bounds d hd)
      omega
    · have := (dy_bounds d hd)
      omega
    · have := (dy_bounds d hd)
      omega
  · exact ⟨x1, y1, hdec, b1, b2, b3, b4, Or.inr ⟨hm, hv⟩⟩

theorem nextSearchStart_lt (d : Nat) : nextSearchStart d < 8 :=
  Nat.mod_lt _ (by norm_num)

/-- Write classification for the whole trace loop. -/
theorem traceLoop_writes (alloc : Alloc) (mask : Mask) (rx ry rw rh cur x y : Int)
    (sx sy : Int) :
    ∀ (fuel : Nat) (x0 y0 xx yy : Int) (i : Nat) (label : Int → Int)
      (contour : Option contour_t) (aIdx : Nat) (ret : Bool)
      (label' : Int → Int) (contour' : Option contour_t) (aIdx' : Nat),
      i < 8 → 0 ≤ x0 → x0 < rw → 0 ≤ y0 → y0 < rh →
      mask (rx + x0) (ry + y0) ≠ 0 →
      traceLoop alloc mask rx ry rw rh cur x y x0 y0 xx yy i label contour
        aIdx fuel = some (ret, label', contour', aIdx') →
      labelWrites mask rx ry rw rh cur sx sy label label' := by
  intro fuel
  induction fuel with
  | zero =>
    intro x0 y0 xx yy i label contour aIdx ret label' contour' aIdx'
      _ _ _ _ _ _ h
    exact Option.noConfusion h
  | succ fuel ihf =>
    intro x0 y0 xx yy i label contour aIdx ret label' contour' aIdx'
      hi hx1 hx2 hy1 hy2 hfg h
    simp only [traceLoop] at h
    rcases happ : appendOpt alloc aIdx contour (rx + x0) (ry + y0) with ⟨b, c₂, a₂⟩
    rw [happ] at h
    cases b with
    | false =>
      cases h
      exact labelWrites_refl mask rx ry rw rh cur sx sy label
    | true =>
      rcases hsc : traceScan mask rx ry rw rh cur x0 y0 label i 8 with ⟨l₂, i₂, found⟩
      rw [hsc] at h
      have hscw : labelWrites mask rx ry rw rh cur sx sy label l₂ := by
        have := traceScan_labelWrites mask rx ry rw rh cur sx sy x0 y0 label i 8
          hi hx1 hx2 hy1 hy2 hfg
        rw [hsc] at this
        exact this
      cases found with
      | none =>
        cases h
        exact hscw
      | some q =>
        obtain ⟨x1, y1⟩ := q
        have hfound := (traceScan_spec mask rx ry rw rh cur x0 y0 8 label i hi).2 x1 y1
          (by rw [hsc])
        rcases hfound with ⟨d, hd, hdx, hdy, c1, c2, c3, c4, cfg⟩
        dsimp only at h
        by_cases hxx : xx < 0 ∧ yy < 0
        · rw [if_pos hxx] at h
          exact labelWrites_trans hscw
            (ihf x1 y1 x1 y1 (nextSearchStart i₂) l₂ c₂ a₂ ret label' contour' aIdx'
              (nextSearchStart_lt i₂) c1 c2 c3 c4 cfg h)
        · rw [if_neg hxx] at h
          by_cases hdone : x = x0 ∧ xx = x1 ∧ y = y0 ∧ yy = y1
          · rw [if_pos hdone] at h
            cases h
            exact hscw
          · rw [if_neg hdone] at h
            exact labelWrites_trans hscw
              (ihf x1 y1 xx yy (nextSearchStart i₂) l₂ c₂ a₂ ret label' contour' aIdx'
                (nextSearchStart_lt i₂) c1 c2 c3 c4 cfg h)

/-- Write classification for `contour_trace`: every changed cell is in-ROI;
    foreground cells are written the trace's label and are the start pixel or
    8-adjacent to another foreground cell; background cells are written `-1`. -/
theorem contour_trace_writes (alloc : Alloc) (external : Bool) (mask : Mask)
    (rx ry rw rh cur x y : Int) (label : Int → Int) (contour : Option contour_t)
    (aIdx fuel : Nat) (ret : Bool) (label' : Int → Int)
    (contour' : Option contour_t) (aIdx' : Nat)
    (hx1 : 0 ≤ x) (hx2 : x < rw) (hy1 : 0 ≤ y) (hy2 : y < rh)
    (hfg : mask (rx + x) (ry + y) ≠ 0)
    (h : contour_trace alloc external cur x y rx ry rw rh mask label contour
      aIdx fuel = some (ret, label', contour', aIdx')) :
    labelWrites mask rx ry rw rh cur x y label label' := by
  unfold contour_trace at h
  exact labelWrites_trans
    (setL_start_writes mask rx ry rw rh cur x y label hx1 hx2 hy1 hy2 hfg)
    (traceLoop_writes alloc mask rx ry rw rh cur x y x y fuel x y (-1) (-1)
      (if external then 7 else 3) (setL label (x + rw * y) cur) contour aIdx
      ret label' contour' aIdx'
      (by cases external <;> simp) hx1 hx2 hy1 hy2 hfg h)

/-- Case 1 either leaves the label buffer alone or performs a trace's writes
    with label `s.current`, started at the scanned pixel. -/
theorem case1Step_label (alloc : Alloc) (fuel : Nat) (mask : Mask)
    (rx ry rw rh : Int) (s : FBState) (i j : Int) (s' : FBState)
    (hx1 : 0 ≤ i) (hx2 : i < rw) (hy1 : 0 ≤ j) (hy2 : j < rh)
    (hfg : mask (rx + i) (ry + j) ≠ 0)
    (h : case1Step alloc fuel mask rx ry rw rh s i j = some s') :
    (s'.label = s.label ∧ s'.current = s.current) ∨
    (labelWrites mask rx ry rw rh s.current i j s.label s'.label ∧
      s'.current = s.current + 1) := by
  unfold case1Step blob_add at h
  by_cases ha : alloc s.aIdx = true
  · rw [if_pos ha] at h
    dsimp only at h
    cases hct : contour_trace alloc true s.current i j rx ry rw rh mask s.label
        (some emptyContour) (s.aIdx + 1) fuel with
    | none => rw [hct] at h; exact Option.noConfusion h
    | some t =>
      obtain ⟨ret, label', contour', a''⟩ := t
      rw [hct] at h
      cases h
      exact Or.inr ⟨contour_trace_writes alloc true mask rx ry rw rh s.current i j
        s.label (some emptyContour) (s.aIdx + 1) fuel ret label' contour' a''
        hx1 hx2 hy1 hy2 hfg hct, rfl⟩
  · rw [if_neg ha] at h
    cases h
    exact Or.inl ⟨rfl, rfl⟩

/-- Case 2 either leaves the label buffer alone or performs a trace's writes
    with the positive label `cl`, started at the scanned pixel. -/
theorem case2Step_label (alloc : Alloc) (fuel : Nat) (mask : Mask)
    (rx ry rw rh : Int) (ext : Bool) (s : FBState) (i j cl : Int) (s' : FBState)
    (hx1 : 0 ≤ i) (hx2 : i < rw) (hy1 : 0 ≤ j) (hy2 : j < rh)
    (hfg : mask (rx + i) (ry + j) ≠ 0)
    (h : case2Step alloc fuel mask rx ry rw rh ext s i j cl = some s') :
    (s'.label = s.label ∧ s'.current = s.current) ∨
    (1 ≤ cl ∧ cl ≤ (s.blobs.length : Int) ∧
      labelWrites mask rx ry rw rh cl i j s.label s'.label ∧
      s'.current = s.current) := by
  unfold case2Step at h
  by_cases hg : 1 ≤ cl ∧ cl ≤ (s.blobs.length : Int)
  · rw [if_pos hg] at h
    cases ext with
    | true =>
      rw [if_pos rfl] at h
      unfold blob_add_internal at h
      by_cases ha : alloc s.aIdx = true
      · rw [if_pos ha] at h
        dsimp only at h
        cases hct : contour_trace alloc false cl i j rx ry rw rh mask s.label
            (some emptyContour) (s.aIdx + 1) fuel with
        | none => rw [hct] at h; exact Option.noConfusion h
        | some t =>
          obtain ⟨ret, label', contour', a''⟩ := t
          rw [hct] at h
          cases h
          exact Or.inr ⟨hg.1, hg.2, contour_trace_writes alloc false mask rx ry rw
            rh cl i j s.label (some emptyContour) (s.aIdx + 1) fuel ret label'
            contour' a'' hx1 hx2 hy1 hy2 hfg hct, rfl⟩
      · rw [if_neg ha] at h
        cases h
        exact Or.inl ⟨rfl, rfl⟩
    | false =>
      rw [if_neg (by simp)] at h
      cases hct : contour_trace alloc false cl i j rx ry rw rh mask s.label
          none s.aIdx fuel with
      | none => rw [hct] at h; exact Option.noConfusion h
      | some t =>
        obtain ⟨ret, label', contour', a''⟩ := t
        rw [hct] at h
        cases h
        exact Or.inr ⟨hg.1, hg.2, contour_trace_writes alloc false mask rx ry rw
          rh cl i j s.label none s.aIdx fuel ret label' contour' a''
          hx1 hx2 hy1 hy2 hfg hct, rfl⟩
  · rw [if_neg hg] at h
    exact Option.noConfusion h

/-- Master classification of one scan step's label-buffer effect: either it
    leaves the buffer alone, or the scanned pixel is foreground and the step
    is a trace's writes with a label that is `s.current` or at most the
    registry size (and in either case at least 1), or it is the single
    interior-propagation write of 0 or the left neighbour's state to the
    scanned cell, which was still 0. -/
theorem scanStep_label (alloc : Alloc) (fuel : Nat) (mask : Mask)
    (rx ry rw rh : Int) (ext : Bool) (s : FBState) (p : Int × Int) (s' : FBState)
    (hx1 : 0 ≤ p.1) (hx2 : p.1 < rw) (hy1 : 0 ≤ p.2) (hy2 : p.2 < rh)
    (hcur : 1 ≤ s.current)
    (h : scanStep alloc fuel mask rx ry rw rh ext s p = some s') :
    (s'.label = s.label ∧ s'.current = s.current) ∨
    (mask (rx + p.1) (ry + p.2) ≠ 0 ∧
      ((∃ cur, 1 ≤ cur ∧ labelWrites mask rx ry rw rh cur p.1 p.2 s.label s'.label ∧
          ((cur = s.current ∧ s'.current = s.current + 1) ∨
           (cur ≤ (s.blobs.length : Int) ∧ s'.current = s.current))) ∨
       (s.label (p.1 + rw * p.2) = 0 ∧ s'.current = s.current ∧
         ∃ v, s'.label = setL s.label (p.1 + rw * p.2) v ∧
           (v = 0 ∨ v = s.label (p.1 + rw * p.2 - 1))))) := by
  simp only [scanStep] at h
  by_cases hf : s.failed = true
  · rw [if_pos hf] at h; cases h; exact Or.inl ⟨rfl, rfl⟩
  rw [if_neg hf] at h
  by_cases hm : mask (rx + p.1) (ry + p.2) = 0
  · rw [if_pos hm] at h; cases h; exact Or.inl ⟨rfl, rfl⟩
  rw [if_neg hm] at h
  by_cases h1 : s.label (p.1 + rw * p.2) = 0 ∧
      (if 0 < p.2 then mask (rx + p.1) (ry + p.2 - 1) else 0) = 0
  · rw [if_pos h1] at h
    rcases case1Step_label _ _ _ _ _ _ _ _ _ _ _ hx1 hx2 hy1 hy2 hm h
      with ha | ⟨hb, hbc⟩
    · exact Or.inl ha
    · exact Or.inr ⟨hm, Or.inl ⟨s.current, hcur, hb, Or.inl ⟨rfl, hbc⟩⟩⟩
  rw [if_neg h1] at h
  by_cases h2 : (if p.2 < rh - 1 then mask (rx + p.1) (ry + p.2 + 1) else 0) = 0 ∧
      (if p.2 < rh - 1 then s.label (p.1 + rw * p.2 + rw) else -1) = 0
  · rw [if_pos h2] at h
    rcases case2Step_label _ _ _ _ _ _ _ _ _ _ _ _ _ hx1 hx2 hy1 hy2 hm h
      with ha | ⟨hcl, hcl2, hb, hbc⟩
    · exact Or.inl ha
    · exact Or.inr ⟨hm, Or.inl ⟨_, hcl, hb, Or.inr ⟨hcl2, hbc⟩⟩⟩
  rw [if_neg h2] at h
  by_cases h3 : s.label (p.1 + rw * p.2) = 0
  · rw [if_pos h3] at h
    cases h
    refine Or.inr ⟨hm, Or.inr ⟨h3, rfl, _, rfl, ?_⟩⟩
    by_cases hi : 0 < p.1
    · rw [if_pos hi]; exact Or.inr rfl
    · rw [if_neg hi]; exact Or.inl rfl
  · rw [if_neg h3] at h
    cases h
    exact Or.inl ⟨rfl, rfl⟩

/-- Scan invariant for C1: the next label is positive, every cell lies in
    `[-1, current)`, and background cells hold 0 or `-1`. -/
def cellsOK (mask : Mask) (rx ry rw rh : Int) (s : FBState) : Prop :=
  1 ≤ s.current ∧
  (∀ off, -1 ≤ s.label off ∧ s.label off < s.current) ∧
  (∀ x y, 0 ≤ x → x < rw → 0 ≤ y → y < rh → mask (rx + x) (ry + y) = 0 →
    s.label (x + rw * y) = 0 ∨ s.label (x + rw * y) = -1)

theorem scanStep_cellsOK (alloc : Alloc) (fuel : Nat) (mask : Mask)
    (rx ry rw rh : Int) (ext : Bool) (s : FBState) (p : Int × Int) (s' : FBState)
    (hx1 : 0 ≤ p.1) (hx2 : p.1 < rw) (hy1 : 0 ≤ p.2) (hy2 : p.2 < rh)
    (h : scanStep alloc fuel mask rx ry rw rh ext s p = some s')
    (hseq : labelsSeq s) (hP : cellsOK mask rx ry rw rh s) :
    cellsOK mask rx ry rw rh s' := by
  obtain ⟨hc1, hcells, hbg⟩ := hP
  have hrw : 0 < rw := by omega
  rcases scanStep_label alloc fuel mask rx ry rw rh ext s p s'
      hx1 hx2 hy1 hy2 hc1 h with ⟨hleq, hceq⟩ |
      ⟨hm, ⟨cur, hg1, hw, hcc⟩ | ⟨hold, hceq, v, hset, hv⟩⟩
  · refine ⟨by rw [hceq]; exact hc1, ?_, ?_⟩
    · intro off
      rw [hleq, hceq]
      exact hcells off
    · intro x y hx hx' hy hy' hmask
      rw [hleq]
      exact hbg x y hx hx' hy hy' hmask
  · have hcur' : s'.current = s.current ∨ s'.current = s.current + 1 := by
      rcases hcc with ⟨_, hcc⟩ | ⟨_, hcc⟩
      · exact Or.inr hcc
      · exact Or.inl hcc
    have hcurlt : cur < s'.current := by
      rcases hcc with ⟨he, hcc⟩ | ⟨hle, hcc⟩
      · omega
      · have := hseq.1
        omega
    refine ⟨by rcases hcur' with hc | hc <;> omega, ?_, ?_⟩
    · intro off
      by_cases hch : s'.label off = s.label off
      · have := hcells off
        rw [hch]
        rcases hcur' with hc | hc <;> constructor <;> omega
      · rcases hw off hch with ⟨x1, y1, hdec, b1, b2, b3, b4,
          ⟨hfg, hv, _⟩ | ⟨hbg', hv⟩⟩
        · rw [hv]
          exact ⟨by omega, hcurlt⟩
        · rw [hv]
          rcases hcur' with hc | hc <;> constructor <;> omega
    · intro x y hx hx' hy hy' hmask
      by_cases hch : s'.label (x + rw * y) = s.label (x + rw * y)
      · rw [hch]
        exact hbg x y hx hx' hy hy' hmask
      · rcases hw _ hch with ⟨x1, y1, hdec, b1, b2, b3, b4,
          ⟨hfg, _, _⟩ | ⟨_, hv⟩⟩
        · obtain ⟨hxe, hye⟩ := offset_inj hrw hx hx' b1 b2 hdec
          rw [← hxe, ← hye] at hfg
          exact absurd hmask hfg
        · exact Or.inr hv
  · refine ⟨by rw [hceq]; exact hc1, ?_, ?_⟩
    · intro off
      rw [hset, hceq]
      by_cases he : off = p.1 + rw * p.2
      · have hval : setL s.label (p.1 + rw * p.2) v off = v := by simp [setL, he]
        rw [hval]
        rcases hv with hv | hv
        · rw [hv]
          constructor <;> omega
        · rw [hv]
          exact hcells _
      · have hval : setL s.label (p.1 + rw * p.2) v off = s.label off := by
          simp [setL, he]
        rw [hval]
        exact hcells off
    · intro x y hx hx' hy hy' hmask
      rw [hset]
      by_cases he : x + rw * y = p.1 + rw * p.2
      · obtain ⟨hxe, hye⟩ := offset_inj hrw hx hx' hx1 hx2 he
        exfalso
        rw [← hxe, ← hye] at hm
        exact hm hmask
      · have hval : setL s.label (p.1 + rw * p.2) v (x + rw * y) =
            s.label (x + rw * y) := by simp [setL, he]
        rw [hval]
        exact hbg x y hx hx' hy hy' hmask

/-! ## Claim C1 -/

/-- C1 (amended): after a successful `find_blobs` call, every cell of the
    label buffer holds a value in `[-1, N]` where `N` is the number of
    returned blobs, and every background cell of the clamped ROI holds 0 or
    `-1`; a foreground pixel is NOT guaranteed a positive label (the
    counterexample exhibits one left at 0). -/
theorem c1_label_classification :
    ∀ (alloc : Alloc) (fuel : Nat) (roi_x roi_y roi_w roi_h : Int) (mask : Mask)
      (in_w in_h : Int) (label0 : Int → Int) (lw0 lh0 : Int) (ext : Bool)
      (r : FBResult) (rx ry rw rh : Int),
      find_blobs alloc fuel roi_x roi_y roi_w roi_h mask in_w in_h
        label0 lw0 lh0 ext = some r →
      r.ret = true →
      clampROI roi_x roi_y roi_w roi_h in_w in_h = some (rx, ry, rw, rh) →
      ∀ x y, 0 ≤ x → x < rw → 0 ≤ y → y < rh →
        (-1 ≤ r.label (x + rw * y) ∧
          r.label (x + rw * y) ≤ (r.blobs.length : Int)) ∧
        (mask (rx + x) (ry + y) = 0 →
          r.label (x + rw * y) = 0 ∨ r.label (x + rw * y) = -1) := by
  intro alloc fuel roi_x roi_y roi_w roi_h mask in_w in_h label0 lw0 lh0 ext r
    rx ry rw rh h hret hclamp
  rcases find_blobs_inversion h with ⟨hc, _⟩ | ⟨rx', ry', rw', rh', s, hc, hrun, hr⟩
  · rw [hc] at hclamp
    exact Option.noConfusion hclamp
  · rw [hc] at hclamp
    injection hclamp with he
    obtain ⟨he1, he2, he3, he4⟩ : rx' = rx ∧ ry' = ry ∧ rw' = rw ∧ rh' = rh := by
      simpa [Prod.ext_iff] using he
    rw [he1, he2, he3, he4] at hrun
    subst hr
    dsimp only
    have hinv : cellsOK mask rx ry rw rh s ∧ labelsSeq s := by
      refine runScan_inv _ (fun t => cellsOK mask rx ry rw rh t ∧ labelsSeq t)
        (pixels rw rh) _ s ?_ hrun ?_
      · intro q t t' hq hst hPt
        obtain ⟨b1, b2, b3, b4⟩ := pixels_mem hq
        exact ⟨scanStep_cellsOK _ _ _ _ _ _ _ _ _ _ _ b1 b2 b3 b4 hst hPt.2 hPt.1,
          scanStep_labelsSeq _ _ _ _ _ _ _ _ _ _ _ hst hPt.2⟩
      · refine ⟨⟨by norm_num, ?_, ?_⟩, by norm_num, ?_⟩
        · intro off
          constructor <;> norm_num
        · intro x y _ _ _ _ _
          exact Or.inl rfl
        · intro k hk
          exact absurd hk (by simp)
    intro x y hx hx' hy hy'
    constructor
    · have hcell := hinv.1.2.1 (x + rw * y)
      have hlen := hinv.2.1
      exact ⟨hcell.1, by omega⟩
    · intro hmask
      exact hinv.1.2.2 x y hx hx' hy hy' hmask

/-- Witness for C1: on the 3×3 ring, the background centre cell (offset 4)
    ends within bounds and, being background, holds 0 or -1. -/
theorem c1_label_classification_witness :
    (find_blobs allocOK 60 0 0 3 3 maskRing 3 3 zeroLabel 0 0 true).isSome
      = true ∧
    ((-1 ≤ ((find_blobs allocOK 60 0 0 3 3 maskRing 3 3 zeroLabel 0 0
        true).getD noResult).label (1 + 3 * 1) ∧
      ((find_blobs allocOK 60 0 0 3 3 maskRing 3 3 zeroLabel 0 0
        true).getD noResult).label (1 + 3 * 1) ≤
        (((find_blobs allocOK 60 0 0 3 3 maskRing 3 3 zeroLabel 0 0
          true).getD noResult).blobs.length : Int)) ∧
     (maskRing (0 + 1) (0 + 1) = 0 →
       ((find_blobs allocOK 60 0 0 3 3 maskRing 3 3 zeroLabel 0 0
         true).getD noResult).label (1 + 3 * 1) = 0 ∨
       ((find_blobs allocOK 60 0 0 3 3 maskRing 3 3 zeroLabel 0 0
         true).getD noResult).label (1 + 3 * 1) = -1)) :=
  ⟨by decide,
   c1_label_classification allocOK 60 0 0 3 3 maskRing 3 3 zeroLabel 0 0 true _
     0 0 3 3 (some_getD _ noResult (by decide)) (by decide) (by decide)
     1 1 (by decide) (by decide) (by decide) (by decide)⟩

/-- Counterexample for C1 as frozen: on the 4×3 pinch mask the foreground
    pixel (2,1) (flat offset 6) ends with label 0 in a successful run, so a
    nonzero-mask pixel is not always positively labelled. -/
theorem c1_counterexample :
    mask43 2 1 ≠ 0 ∧
    (find_blobs allocOK 100 0 0 4 3 mask43 4 3 zeroLabel 0 0 true).map
      (fun r => (r.ret, r.label 6)) = some (true, 0) := by decide

/-- The inner scan accepts exactly the first foreground neighbour in
    clockwise direction order starting at the search index: if it returns a
    found neighbour with final index `i'`, then `i'` lies `m` positions
    clockwise of the start, every direction strictly before was rejected
    (out of ROI or background), and the found cell is the in-ROI foreground
    neighbour in direction `i'`. -/
theorem traceScan_clockwise (mask : Mask) (rx ry rw rh cur x0 y0 : Int) :
    ∀ (steps : Nat) (label : Int → Int) (i : Nat), i < 8 →
    ∀ (label' : Int → Int) (i' : Nat) (x1 y1 : Int),
      traceScan mask rx ry rw rh cur x0 y0 label i steps =
        (label', i', some (x1, y1)) →
      ∃ m, m < steps ∧ i' = (i + m) % 8 ∧
        x1 = x0 + dx i' ∧ y1 = y0 + dy i' ∧
        0 ≤ x1 ∧ x1 < rw ∧ 0 ≤ y1 ∧ y1 < rh ∧ mask (rx + x1) (ry + y1) ≠ 0 ∧
        (∀ t, t < m →
          (x0 + dx ((i + t) % 8) < 0 ∨ rw ≤ x0 + dx ((i + t) % 8) ∨
           y0 + dy ((i + t) % 8) < 0 ∨ rh ≤ y0 + dy ((i + t) % 8) ∨
           mask (rx + (x0 + dx ((i + t) % 8)))
             (ry + (y0 + dy ((i + t) % 8))) = 0)) := by
  intro steps
  induction steps with
  | zero =>
    intro label i hi label' i' x1 y1 h
    injection h with h1 h2
    injection h2 with h2 h3
    exact Option.noConfusion h3
  | succ steps ih =>
    intro label i hi label' i' x1 y1 h
    simp only [traceScan] at h
    by_cases hoor : x0 + dx i < 0 ∨ rw ≤ x0 + dx i ∨ y0 + dy i < 0 ∨ rh ≤ y0 + dy i
    · rw [if_pos hoor] at h
      rcases ih label ((i + 1) % 8) (Nat.mod_lt _ (by norm_num)) label' i' x1 y1 h
        with ⟨m, hm, hieq, hrest⟩
      refine ⟨m + 1, by omega, ?_, ?_⟩
      · rw [hieq, Nat.mod_add_mod]
        congr 1
        omega
      · obtain ⟨ha, hb, hc, hd, he, hf, hg, hrej⟩ := hrest
        refine ⟨ha, hb, hc, hd, he, hf, hg, ?_⟩
        intro t ht
        cases t with
        | zero =>
          simp only [Nat.add_zero, Nat.mod_eq_of_lt hi]
          rcases hoor with h' | h' | h' | h'
          · exact Or.inl h'
          · exact Or.inr (Or.inl h')
          · exact Or.inr (Or.inr (Or.inl h'))
          · exact Or.inr (Or.inr (Or.inr (Or.inl h')))
        | succ t =>
          have := hrej t (by omega)
          have hmod : ((i + 1) % 8 + t) % 8 = (i + (t + 1)) % 8 := by
            rw [Nat.mod_add_mod]
            congr 1
            omega
          rw [hmod] at this
          exact this
    · rw [if_neg hoor] at h
      push_neg at hoor
      obtain ⟨hb1, hb2, hb3, hb4⟩ := hoor
      by_cases hfg : mask (rx + (x0 + dx i)) (ry + (y0 + dy i)) ≠ 0
      · rw [if_pos hfg] at h
        injection h with h1 h2
        injection h2 with h2 h3
        injection h3 with h3
        injection h3 with h3x h3y
        subst h2
        refine ⟨0, by omega, by rw [Nat.add_zero, Nat.mod_eq_of_lt hi], ?_, ?_,
          ?_, ?_, ?_, ?_, ?_, ?_⟩
        · exact h3x.symm
        · exact h3y.symm
        · omega
        · omega
        · omega
        · omega
        · rw [← h3x, ← h3y]; exact hfg
        · intro t ht
          exact absurd ht (by omega)
      · rw [if_neg hfg] at h
        push_neg at hfg
        rcases ih (setL label (x0 + dx i + rw * (y0 + dy i)) (-1)) ((i + 1) % 8)
          (Nat.mod_lt _ (by norm_num)) label' i' x1 y1 h
          with ⟨m, hm, hieq, hrest⟩
        refine ⟨m + 1, by omega, ?_, ?_⟩
        · rw [hieq, Nat.mod_add_mod]
          congr 1
          omega
        · obtain ⟨ha, hb, hc, hd, he, hf, hg, hrej⟩ := hrest
          refine ⟨ha, hb, hc, hd, he, hf, hg, ?_⟩
          intro t ht
          cases t with
          | zero =>
            simp only [Nat.add_zero, Nat.mod_eq_of_lt hi]
            exact Or.inr (Or.inr (Or.inr (Or.inr hfg)))
          | succ t =>
            have := hrej t (by omega)
            have hmod : ((i + 1) % 8 + t) % 8 = (i + (t + 1)) % 8 := by
              rw [Nat.mod_add_mod]
              congr 1
              omega
            rw [hmod] at this
            exact this

/-! ## Claim C6 -/

/-- C6: the tracer scans the 8 neighbour directions in clockwise order
    starting from search index 7 for external contours and 3 for internal
    ones (first conjunct: the loop is entered with exactly that index), the
    scan accepts the first foreground neighbour in clockwise order from the
    search index (last conjunct), and after an accepted step arriving from
    direction `d` the next search index is `(d + 4 + 2) mod 8` (middle
    conjunct: the `nextSearchStart` used by the loop equals that formula). -/
theorem c6_clockwise_scan_and_restart :
    (∀ (alloc : Alloc) (external : Bool) (cur x y rx ry rw rh : Int)
       (mask : Mask) (label : Int → Int) (contour : Option contour_t)
       (aIdx fuel : Nat),
      contour_trace alloc external cur x y rx ry rw rh mask label contour
          aIdx fuel =
        traceLoop alloc mask rx ry rw rh cur x y x y (-1) (-1)
          (if external then 7 else 3) (setL label (x + rw * y) cur) contour
          aIdx fuel) ∧
    (∀ d : Nat, nextSearchStart d = (d + 4 + 2) % 8) ∧
    (∀ (mask : Mask) (rx ry rw rh cur x0 y0 : Int) (steps : Nat)
       (label : Int → Int) (i : Nat), i < 8 →
     ∀ (label' : Int → Int) (i' : Nat) (x1 y1 : Int),
      traceScan mask rx ry rw rh cur x0 y0 label i steps =
        (label', i', some (x1, y1)) →
      ∃ m, m < steps ∧ i' = (i + m) % 8 ∧
        x1 = x0 + dx i' ∧ y1 = y0 + dy i' ∧
        0 ≤ x1 ∧ x1 < rw ∧ 0 ≤ y1 ∧ y1 < rh ∧ mask (rx + x1) (ry + y1) ≠ 0 ∧
        (∀ t, t < m →
          (x0 + dx ((i + t) % 8) < 0 ∨ rw ≤ x0 + dx ((i + t) % 8) ∨
           y0 + dy ((i + t) % 8) < 0 ∨ rh ≤ y0 + dy ((i + t) % 8) ∨
           mask (rx + (x0 + dx ((i + t) % 8)))
             (ry + (y0 + dy ((i + t) % 8))) = 0))) :=
  ⟨fun _ _ _ _ _ _ _ _ _ _ _ _ _ _ => rfl,
   fun d => by unfold nextSearchStart; omega,
   fun mask rx ry rw rh cur x0 y0 steps label i hi =>
     traceScan_clockwise mask rx ry rw rh cur x0 y0 steps label i hi⟩

/-- Witness for C6: on the 3×3 ring, the scan around (0,0) started at index
    7 (external initial index) rejects direction 7 (out of ROI) and accepts
    direction 0, the east neighbour (1,0). -/
theorem c6_clockwise_scan_and_restart_witness :
    (7 : Nat) < 8 ∧
    traceScan maskRing 0 0 3 3 5 0 0 zeroLabel 7 8 =
      (setL zeroLabel 1 5, 0, some (1, 0)) ∧
    (∃ m, m < 8 ∧ 0 = (7 + m) % 8 ∧
      (1 : Int) = 0 + dx 0 ∧ (0 : Int) = 0 + dy 0 ∧
      (0 : Int) ≤ 1 ∧ (1 : Int) < 3 ∧ (0 : Int) ≤ 0 ∧ (0 : Int) < 3 ∧
      maskRing (0 + 1) (0 + 0) ≠ 0 ∧
      (∀ t, t < m →
        ((0 : Int) + dx ((7 + t) % 8) < 0 ∨ (3 : Int) ≤ 0 + dx ((7 + t) % 8) ∨
         (0 : Int) + dy ((7 + t) % 8) < 0 ∨ (3 : Int) ≤ 0 + dy ((7 + t) % 8) ∨
         maskRing (0 + (0 + dx ((7 + t) % 8))) (0 + (0 + dy ((7 + t) % 8)))
           = 0))) :=
  ⟨by decide, by rfl,
   c6_clockwise_scan_and_restart.2.2 maskRing 0 0 3 3 5 0 0 8 zeroLabel 7
     (by decide) (setL zeroLabel 1 5) 0 1 0 (by rfl)⟩

/-- The contour produced by a successful append (all allocations succeed). -/
def appendedC (c : contour_t) (x y : Int) : contour_t :=
  ⟨c.points ++ [(x, y)],
   if c.points.length = c.capacity then
     (if c.capacity = 0 then 32 else 2 * c.capacity) else c.capacity⟩

theorem appendOpt_allocOK (c : contour_t) (a : Nat) (x y : Int) :
    ∃ a', appendOpt allocOK a (some c) x y = (true, some (appendedC c x y), a') := by
  unfold appendOpt contour_add_point appendedC allocOK
  by_cases hc : c.points.length = c.capacity
  · exact ⟨a + 1, by simp [hc]⟩
  · exact ⟨a, by simp [hc]⟩

/-- Under the always-succeeding allocation oracle, dropping the output
    contour does not change the trace's success flag or label writes. -/
theorem traceLoop_drop_contour (mask : Mask) (rx ry rw rh cur x y : Int) :
    ∀ (fuel : Nat) (x0 y0 xx yy : Int) (i : Nat) (label : Int → Int)
      (c0 : contour_t) (a1 a2 : Nat),
      (traceLoop allocOK mask rx ry rw rh cur x y x0 y0 xx yy i label (some c0)
          a1 fuel).map (fun r => (r.1, r.2.1)) =
      (traceLoop allocOK mask rx ry rw rh cur x y x0 y0 xx yy i label none
          a2 fuel).map (fun r => (r.1, r.2.1)) := by
  intro fuel
  induction fuel with
  | zero => intro x0 y0 xx yy i label c0 a1 a2; rfl
  | succ fuel ih =>
    intro x0 y0 xx yy i label c0 a1 a2
    simp only [traceLoop]
    obtain ⟨a1', happ⟩ := appendOpt_allocOK c0 a1 (rx + x0) (ry + y0)
    rw [happ]
    show _ = (match appendOpt allocOK a2 none (rx + x0) (ry + y0) with
      | (false, contour', aIdx') => some (false, label, contour', aIdx')
      | (true, contour', aIdx') => _).map _
    dsimp only [appendOpt]
    rcases hsc : traceScan mask rx ry rw rh cur x0 y0 label i 8 with ⟨l₂, i₂, found⟩
    cases found with
    | none => rfl
    | some q =>
      obtain ⟨x1, y1⟩ := q
      dsimp only
      by_cases hxx : xx < 0 ∧ yy < 0
      · rw [if_pos hxx, if_pos hxx]
        exact ih x1 y1 x1 y1 (nextSearchStart i₂) l₂ (appendedC c0 (rx + x0) (ry + y0)) a1' a2
      · rw [if_neg hxx, if_neg hxx]
        by_cases hdone : x = x0 ∧ xx = x1 ∧ y = y0 ∧ yy = y1
        · rw [if_pos hdone, if_pos hdone]
          rfl
        · rw [if_neg hdone, if_neg hdone]
          exact ih x1 y1 xx yy (nextSearchStart i₂) l₂
            (appendedC c0 (rx + x0) (ry + y0)) a1' a2

/-- Under the always-succeeding allocation oracle, the trace's success flag,
    label writes and produced contour do not depend on the oracle index. -/
theorem traceLoop_aIdx_indep (mask : Mask) (rx ry rw rh cur x y : Int) :
    ∀ (fuel : Nat) (x0 y0 xx yy : Int) (i : Nat) (label : Int → Int)
      (contour : Option contour_t) (a1 a2 : Nat),
      (traceLoop allocOK mask rx ry rw rh cur x y x0 y0 xx yy i label contour
          a1 fuel).map (fun r => (r.1, r.2.1, r.2.2.1)) =
      (traceLoop allocOK mask rx ry rw rh cur x y x0 y0 xx yy i label contour
          a2 fuel).map (fun r => (r.1, r.2.1, r.2.2.1)) := by
  intro fuel
  induction fuel with
  | zero => intro x0 y0 xx yy i label contour a1 a2; rfl
  | succ fuel ih =>
    intro x0 y0 xx yy i label contour a1 a2
    simp only [traceLoop]
    cases contour with
    | none =>
      dsimp only [appendOpt]
      rcases hsc : traceScan mask rx ry rw rh cur x0 y0 label i 8
        with ⟨l₂, i₂, found⟩
      cases found with
      | none => rfl
      | some q =>
        obtain ⟨x1, y1⟩ := q
        dsimp only
        by_cases hxx : xx < 0 ∧ yy < 0
        · rw [if_pos hxx, if_pos hxx]
          exact ih x1 y1 x1 y1 (nextSearchStart i₂) l₂ none a1 a2
        · rw [if_neg hxx, if_neg hxx]
          by_cases hdone : x = x0 ∧ xx = x1 ∧ y = y0 ∧ yy = y1
          · rw [if_pos hdone, if_pos hdone]
            rfl
          · rw [if_neg hdone, if_neg hdone]
            exact ih x1 y1 xx yy (nextSearchStart i₂) l₂ none a1 a2
    | some c0 =>
      obtain ⟨a1', happ1⟩ := appendOpt_allocOK c0 a1 (rx + x0) (ry + y0)
      obtain ⟨a2', happ2⟩ := appendOpt_allocOK c0 a2 (rx + x0) (ry + y0)
      rw [happ1, happ2]
      rcases hsc : traceScan mask rx ry rw rh cur x0 y0 label i 8
        with ⟨l₂, i₂, found⟩
      cases found with
      | none => rfl
      | some q =>
        obtain ⟨x1, y1⟩ := q
        dsimp only
        by_cases hxx : xx < 0 ∧ yy < 0
        · rw [if_pos hxx, if_pos hxx]
          exact ih x1 y1 x1 y1 (nextSearchStart i₂) l₂
            (some (appendedC c0 (rx + x0) (ry + y0))) a1' a2'
        · rw [if_neg hxx, if_neg hxx]
          by_cases hdone : x = x0 ∧ xx = x1 ∧ y = y0 ∧ yy = y1
          · rw [if_pos hdone, if_pos hdone]
            rfl
          · rw [if_neg hdone, if_neg hdone]
            exact ih x1 y1 xx yy (nextSearchStart i₂) l₂
              (some (appendedC c0 (rx + x0) (ry + y0))) a1' a2'

theorem getD_ge_len {α : Type} (l : List α) (k : Nat) (d : α)
    (h : l.length ≤ k) : l.getD k d = d := by
  induction l generalizing k with
  | nil => cases k <;> rfl
  | cons a t ih =>
    cases k with
    | zero => simp at h
    | succ n =>
      simp only [List.getD_cons_succ]
      exact ih n (by simpa using h)

theorem contour_trace_drop_contour (external : Bool) (cur x y rx ry rw rh : Int)
    (mask : Mask) (label : Int → Int) (c0 : contour_t) (a1 a2 fuel : Nat) :
    (contour_trace allocOK external cur x y rx ry rw rh mask label (some c0)
        a1 fuel).map (fun r => (r.1, r.2.1)) =
    (contour_trace allocOK external cur x y rx ry rw rh mask label none
        a2 fuel).map (fun r => (r.1, r.2.1)) := by
  unfold contour_trace
  exact traceLoop_drop_contour mask rx ry rw rh cur x y fuel x y (-1) (-1) _ _
    c0 a1 a2

theorem contour_trace_aIdx_indep (external : Bool) (cur x y rx ry rw rh : Int)
    (mask : Mask) (label : Int → Int) (contour : Option contour_t)
    (a1 a2 fuel : Nat) :
    (contour_trace allocOK external cur x y rx ry rw rh mask label contour
        a1 fuel).map (fun r => (r.1, r.2.1, r.2.2.1)) =
    (contour_trace allocOK external cur x y rx ry rw rh mask label contour
        a2 fuel).map (fun r => (r.1, r.2.1, r.2.2.1)) := by
  unfold contour_trace
  exact traceLoop_aIdx_indep mask rx ry rw rh cur x y fuel x y (-1) (-1) _ _
    contour a1 a2

/-- Relation between a run extracting internal contours (`s`) and a run that
    only counts them (`t`): everything matches except that `t` materialises
    no internal contour. -/
def lockstep (s t : FBState) : Prop :=
  s.label = t.label ∧ s.current = t.current ∧ s.failed = t.failed ∧
  s.blobs.length = t.blobs.length ∧
  (∀ k, (s.blobs.getD k zeroBlob).label = (t.blobs.getD k zeroBlob).label ∧
    (s.blobs.getD k zeroBlob).external = (t.blobs.getD k zeroBlob).external ∧
    (s.blobs.getD k zeroBlob).internal_count =
      (t.blobs.getD k zeroBlob).internal_count) ∧
  (∀ k, (t.blobs.getD k zeroBlob).internal = [])

theorem fields_append (ls lt : List blob_t) (bs bt : blob_t)
    (hlen : ls.length = lt.length)
    (hfields : ∀ k, (ls.getD k zeroBlob).label = (lt.getD k zeroBlob).label ∧
      (ls.getD k zeroBlob).external = (lt.getD k zeroBlob).external ∧
      (ls.getD k zeroBlob).internal_count = (lt.getD k zeroBlob).internal_count)
    (hb1 : bs.label = bt.label) (hb2 : bs.external = bt.external)
    (hb3 : bs.internal_count = bt.internal_count) :
    ∀ k, ((ls ++ [bs]).getD k zeroBlob).label =
        ((lt ++ [bt]).getD k zeroBlob).label ∧
      ((ls ++ [bs]).getD k zeroBlob).external =
        ((lt ++ [bt]).getD k zeroBlob).external ∧
      ((ls ++ [bs]).getD k zeroBlob).internal_count =
        ((lt ++ [bt]).getD k zeroBlob).internal_count := by
  intro k
  rcases Nat.lt_trichotomy k ls.length with hk | hk | hk
  · rw [getD_append_lt _ _ _ _ hk, getD_append_lt _ _ _ _ (by omega)]
    exact hfields k
  · have e1 : (ls ++ [bs]).getD k zeroBlob = bs := by
      rw [hk]; exact getD_append_len _ _ _
    have e2 : (lt ++ [bt]).getD k zeroBlob = bt := by
      rw [hk, hlen]; exact getD_append_len _ _ _
    rw [e1, e2]
    exact ⟨hb1, hb2, hb3⟩
  · rw [getD_ge_len _ _ _ (by simp; omega), getD_ge_len _ _ _ (by simp; omega)]
    exact ⟨rfl, rfl, rfl⟩

theorem internal_append (lt : List blob_t) (bt : blob_t)
    (hint : ∀ k, (lt.getD k zeroBlob).internal = [])
    (hbt : bt.internal = []) :
    ∀ k, ((lt ++ [bt]).getD k zeroBlob).internal = [] := by
  intro k
  rcases Nat.lt_trichotomy k lt.length with hk | hk | hk
  · rw [getD_append_lt _ _ _ _ hk]
    exact hint k
  · have e2 : (lt ++ [bt]).getD k zeroBlob = bt := by
      rw [hk]; exact getD_append_len _ _ _
    rw [e2]
    exact hbt
  · rw [getD_ge_len _ _ _ (by simp; omega)]
    rfl

theorem case1Step_lockstep (fuel : Nat) (mask : Mask) (rx ry rw rh : Int)
    (s t : FBState) (i j : Int) (hst : lockstep s t) :
    (case1Step allocOK fuel mask rx ry rw rh s i j = none ∧
     case1Step allocOK fuel mask rx ry rw rh t i j = none) ∨
    (∃ s' t', case1Step allocOK fuel mask rx ry rw rh s i j = some s' ∧
      case1Step allocOK fuel mask rx ry rw rh t i j = some t' ∧
      lockstep s' t') := by
  obtain ⟨hl, hcur, hf, hlen, hfields, hint⟩ := hst
  unfold case1Step blob_add
  simp only [allocOK, if_true]
  rw [hl, hcur]
  have hmap := contour_trace_aIdx_indep true s.current i j rx ry rw rh mask
    s.label (some emptyContour) (s.aIdx + 1) (t.aIdx + 1) fuel
  rw [hl, hcur] at hmap
  cases hct : contour_trace allocOK true t.current i j rx ry rw rh mask t.label
      (some emptyContour) (s.aIdx + 1) fuel with
  | none =>
    rw [hct] at hmap
    cases hct2 : contour_trace allocOK true t.current i j rx ry rw rh mask
        t.label (some emptyContour) (t.aIdx + 1) fuel with
    | none =>
      exact Or.inl ⟨rfl, rfl⟩
    | some u =>
      rw [hct2] at hmap
      exact absurd hmap.symm (by simp)
  | some u =>
    obtain ⟨ret, label', contour', a''⟩ := u
    rw [hct] at hmap
    cases hct2 : contour_trace allocOK true t.current i j rx ry rw rh mask
        t.label (some emptyContour) (t.aIdx + 1) fuel with
    | none =>
      rw [hct2] at hmap
      exact absurd hmap (by simp)
    | some u2 =>
      obtain ⟨ret2, label2, contour2, a2''⟩ := u2
      rw [hct2] at hmap
      obtain ⟨hr, hlab, hcon⟩ : ret = ret2 ∧ label' = label2 ∧ contour' = contour2 := by
        simpa [Prod.ext_iff] using hmap
      subst hlab
      subst hcon
      dsimp only
      simp only [getD_append_len, set_append_len]
      refine Or.inr ⟨_, _, rfl, rfl, rfl, rfl, rfl, ?_, ?_, ?_⟩
      · simp only [List.length_append, List.length_singleton]
        omega
      · exact fields_append s.blobs t.blobs _ _ hlen hfields rfl rfl rfl
      · exact internal_append t.blobs _ hint rfl

theorem set_ge_len {α : Type} (l : List α) (k : Nat) (a : α)
    (h : l.length ≤ k) : l.set k a = l := by
  induction l generalizing k with
  | nil => rfl
  | cons b u ih =>
    cases k with
    | zero => simp at h
    | succ n =>
      simp only [List.set]
      rw [ih n (by simpa using h)]

theorem fields_set (ls lt : List blob_t) (bi : Nat) (bs bt : blob_t)
    (hlen : ls.length = lt.length)
    (hfields : ∀ k, (ls.getD k zeroBlob).label = (lt.getD k zeroBlob).label ∧
      (ls.getD k zeroBlob).external = (lt.getD k zeroBlob).external ∧
      (ls.getD k zeroBlob).internal_count = (lt.getD k zeroBlob).internal_count)
    (hb1 : bs.label = bt.label) (hb2 : bs.external = bt.external)
    (hb3 : bs.internal_count = bt.internal_count) :
    ∀ k, ((ls.set bi bs).getD k zeroBlob).label =
        ((lt.set bi bt).getD k zeroBlob).label ∧
      ((ls.set bi bs).getD k zeroBlob).external =
        ((lt.set bi bt).getD k zeroBlob).external ∧
      ((ls.set bi bs).getD k zeroBlob).internal_count =
        ((lt.set bi bt).getD k zeroBlob).internal_count := by
  intro k
  by_cases hk : bi = k
  · subst hk
    by_cases hlt : bi < ls.length
    · rw [getD_set_self _ _ _ _ hlt, getD_set_self _ _ _ _ (by omega)]
      exact ⟨hb1, hb2, hb3⟩
    · rw [set_ge_len _ _ _ (by omega), set_ge_len _ _ _ (by omega)]
      exact hfields bi
  · rw [getD_set_ne _ _ _ _ _ hk, getD_set_ne _ _ _ _ _ hk]
    exact hfields k

theorem internal_set (lt : List blob_t) (bi : Nat) (bt : blob_t)
    (hint : ∀ k, (lt.getD k zeroBlob).internal = [])
    (hbt : bt.internal = []) :
    ∀ k, ((lt.set bi bt).getD k zeroBlob).internal = [] := by
  intro k
  by_cases hk : bi = k
  · subst hk
    by_cases hlt : bi < lt.length
    · rw [getD_set_self _ _ _ _ hlt]
      exact hbt
    · rw [set_ge_len _ _ _ (by omega)]
      exact hint bi
  · rw [getD_set_ne _ _ _ _ _ hk]
    exact hint k

theorem case2Step_lockstep (fuel : Nat) (mask : Mask) (rx ry rw rh : Int)
    (s t : FBState) (i j cl : Int) (hst : lockstep s t) :
    (case2Step allocOK fuel mask rx ry rw rh true s i j cl = none ∧
     case2Step allocOK fuel mask rx ry rw rh false t i j cl = none) ∨
    (∃ s' t', case2Step allocOK fuel mask rx ry rw rh true s i j cl = some s' ∧
      case2Step allocOK fuel mask rx ry rw rh false t i j cl = some t' ∧
      lockstep s' t') := by
  obtain ⟨hl, hcur, hf, hlen, hfields, hint⟩ := hst
  unfold case2Step blob_add_internal
  by_cases hg : 1 ≤ cl ∧ cl ≤ (s.blobs.length : Int)
  · have hg' : 1 ≤ cl ∧ cl ≤ (t.blobs.length : Int) := by
      rw [← hlen]; exact hg
    rw [if_pos hg, if_pos hg']
    rw [if_pos (show (true : Bool) = true from rfl)]
    rw [if_neg (show ¬((false : Bool) = true) from by simp)]
    simp only [allocOK, if_true]
    rw [hl]
    have hmap := contour_trace_drop_contour false cl i j rx ry rw rh mask
      t.label emptyContour (s.aIdx + 1) t.aIdx fuel
    cases hct : contour_trace allocOK false cl i j rx ry rw rh mask t.label
        (some emptyContour) (s.aIdx + 1) fuel with
    | none =>
      rw [hct] at hmap
      cases hct2 : contour_trace allocOK false cl i j rx ry rw rh mask t.label
          none t.aIdx fuel with
      | none =>
        exact Or.inl ⟨rfl, rfl⟩
      | some u =>
        rw [hct2] at hmap
        exact absurd hmap.symm (by simp)
    | some u =>
      obtain ⟨ret, label', contour', a''⟩ := u
      rw [hct] at hmap
      cases hct2 : contour_trace allocOK false cl i j rx ry rw rh mask t.label
          none t.aIdx fuel with
      | none =>
        rw [hct2] at hmap
        exact absurd hmap (by simp)
      | some u2 =>
        obtain ⟨ret2, label2, contour2, a2''⟩ := u2
        rw [hct2] at hmap
        obtain ⟨hr, hlab⟩ : ret = ret2 ∧ label' = label2 := by
          simpa [Prod.ext_iff] using hmap
        subst hlab
        dsimp only
        refine Or.inr ⟨_, _, rfl, rfl, rfl, hcur, hf, ?_, ?_, ?_⟩
        · simp only [List.length_set]
          exact hlen
        · refine fields_set s.blobs t.blobs ((cl - 1).toNat) _ _ hlen hfields
            ?_ ?_ ?_
          · simp only [List.dropLast_concat]
            exact (hfields ((cl - 1).toNat)).1
          · simp only [List.dropLast_concat]
            exact (hfields ((cl - 1).toNat)).2.1
          · simp only [List.dropLast_concat]
            exact congrArg (fun n => n + 1) (hfields ((cl - 1).toNat)).2.2
        · refine internal_set t.blobs ((cl - 1).toNat) _ hint ?_
          exact hint ((cl - 1).toNat)
  · rw [if_neg hg, if_neg (by rw [← hlen]; exact hg)]
    exact Or.inl ⟨rfl, rfl⟩

theorem scanStep_lockstep (fuel : Nat) (mask : Mask) (rx ry rw rh : Int)
    (s t : FBState) (p : Int × Int) (hst : lockstep s t) :
    (scanStep allocOK fuel mask rx ry rw rh true s p = none ∧
     scanStep allocOK fuel mask rx ry rw rh false t p = none) ∨
    (∃ s' t', scanStep allocOK fuel mask rx ry rw rh true s p = some s' ∧
      scanStep allocOK fuel mask rx ry rw rh false t p = some t' ∧
      lockstep s' t') := by
  have hst' := hst
  obtain ⟨hl, hcur, hf, hlen, hfields, hint⟩ := hst
  simp only [scanStep]
  by_cases h0 : s.failed = true
  · rw [if_pos h0, if_pos (show t.failed = true from by rw [← hf]; exact h0)]
    exact Or.inr ⟨s, t, rfl, rfl, hst'⟩
  rw [if_neg h0, if_neg (show ¬t.failed = true from by rw [← hf]; exact h0)]
  by_cases hm : mask (rx + p.1) (ry + p.2) = 0
  · rw [if_pos hm, if_pos hm]
    exact Or.inr ⟨s, t, rfl, rfl, hst'⟩
  rw [if_neg hm, if_neg hm]
  by_cases h1 : s.label (p.1 + rw * p.2) = 0 ∧
      (if 0 < p.2 then mask (rx + p.1) (ry + p.2 - 1) else 0) = 0
  · rw [if_pos h1, if_pos (show t.label (p.1 + rw * p.2) = 0 ∧
      (if 0 < p.2 then mask (rx + p.1) (ry + p.2 - 1) else 0) = 0 from by
        rw [← hl]; exact h1)]
    exact case1Step_lockstep fuel mask rx ry rw rh s t p.1 p.2 hst'
  rw [if_neg h1, if_neg (show ¬(t.label (p.1 + rw * p.2) = 0 ∧
      (if 0 < p.2 then mask (rx + p.1) (ry + p.2 - 1) else 0) = 0) from by
        rw [← hl]; exact h1)]
  by_cases h2 : (if p.2 < rh - 1 then mask (rx + p.1) (ry + p.2 + 1) else 0) = 0 ∧
      (if p.2 < rh - 1 then s.label (p.1 + rw * p.2 + rw) else -1) = 0
  · rw [if_pos h2, if_pos (show
      (if p.2 < rh - 1 then mask (rx + p.1) (ry + p.2 + 1) else 0) = 0 ∧
      (if p.2 < rh - 1 then t.label (p.1 + rw * p.2 + rw) else -1) = 0 from by
        rw [← hl]; exact h2)]
    rw [hl]
    exact case2Step_lockstep fuel mask rx ry rw rh s t p.1 p.2 _ hst'
  rw [if_neg h2, if_neg (show ¬(
      (if p.2 < rh - 1 then mask (rx + p.1) (ry + p.2 + 1) else 0) = 0 ∧
      (if p.2 < rh - 1 then t.label (p.1 + rw * p.2 + rw) else -1) = 0) from by
        rw [← hl]; exact h2)]
  by_cases h3 : s.label (p.1 + rw * p.2) = 0
  · rw [if_pos h3, if_pos (show t.label (p.1 + rw * p.2) = 0 from by
      rw [← hl]; exact h3)]
    refine Or.inr ⟨_, _, rfl, rfl, ?_, hcur, hf, hlen, hfields, hint⟩
    rw [hl]
  · rw [if_neg h3, if_neg (show ¬t.label (p.1 + rw * p.2) = 0 from by
      rw [← hl]; exact h3)]
    exact Or.inr ⟨s, t, rfl, rfl, hst'⟩

theorem runScan_lockstep (fuel : Nat) (mask : Mask) (rx ry rw rh : Int) :
    ∀ (ps : List (Int × Int)) (s t : FBState), lockstep s t →
      (runScan (scanStep allocOK fuel mask rx ry rw rh true) s ps = none ∧
       runScan (scanStep allocOK fuel mask rx ry rw rh false) t ps = none) ∨
      (∃ s' t',
        runScan (scanStep allocOK fuel mask rx ry rw rh true) s ps = some s' ∧
        runScan (scanStep allocOK fuel mask rx ry rw rh false) t ps = some t' ∧
        lockstep s' t') := by
  intro ps
  induction ps with
  | nil =>
    intro s t hst
    exact Or.inr ⟨s, t, rfl, rfl, hst⟩
  | cons q qs ih =>
    intro s t hst
    simp only [runScan]
    rcases scanStep_lockstep fuel mask rx ry rw rh s t q hst with ⟨hn1, hn2⟩ |
      ⟨s1, t1, hs1, ht1, hst1⟩
    · rw [hn1, hn2]
      exact Or.inl ⟨rfl, rfl⟩
    · rw [hs1, ht1]
      exact ih s1 t1 hst1

/-! ## Claim C7 -/

/-- C7: with all allocations succeeding, running `find_blobs` with
    `extract_internal = 1` and with `extract_internal = 0` succeeds on
    exactly the same inputs and produces the same label buffer, dimensions,
    return code, blob count, labels, external contours and hole counts; the
    flag only controls whether internal contour points are materialised
    (with 0 every internal list stays empty). -/
theorem c7_extract_flag_invariance :
    ∀ (fuel : Nat) (roi_x roi_y roi_w roi_h : Int) (mask : Mask)
      (in_w in_h : Int) (label0 : Int → Int) (lw0 lh0 : Int),
      ((find_blobs allocOK fuel roi_x roi_y roi_w roi_h mask in_w in_h
          label0 lw0 lh0 true).isSome =
       (find_blobs allocOK fuel roi_x roi_y roi_w roi_h mask in_w in_h
          label0 lw0 lh0 false).isSome) ∧
      (∀ r1 r2,
        find_blobs allocOK fuel roi_x roi_y roi_w roi_h mask in_w in_h
          label0 lw0 lh0 true = some r1 →
        find_blobs allocOK fuel roi_x roi_y roi_w roi_h mask in_w in_h
          label0 lw0 lh0 false = some r2 →
        r1.ret = r2.ret ∧ r1.label = r2.label ∧ r1.label_w = r2.label_w ∧
        r1.label_h = r2.label_h ∧ r1.blobs.length = r2.blobs.length ∧
        (∀ k, (r1.blobs.getD k zeroBlob).label =
            (r2.blobs.getD k zeroBlob).label ∧
          (r1.blobs.getD k zeroBlob).external =
            (r2.blobs.getD k zeroBlob).external ∧
          (r1.blobs.getD k zeroBlob).internal_count =
            (r2.blobs.getD k zeroBlob).internal_count) ∧
        (∀ k, (r2.blobs.getD k zeroBlob).internal = [])) := by
  intro fuel roi_x roi_y roi_w roi_h mask in_w in_h label0 lw0 lh0
  unfold find_blobs
  cases hc : clampROI roi_x roi_y roi_w roi_h in_w in_h with
  | none =>
    refine ⟨rfl, ?_⟩
    intro r1 r2 h1 h2
    cases h1
    cases h2
    exact ⟨rfl, rfl, rfl, rfl, rfl, fun k => ⟨rfl, rfl, rfl⟩,
      fun k => by cases k <;> rfl⟩
  | some tq =>
    obtain ⟨rx, ry, rw, rh⟩ := tq
    dsimp only
    rcases runScan_lockstep fuel mask rx ry rw rh (pixels rw rh)
        ⟨fun _ => 0, 1, [], 0, false⟩ ⟨fun _ => 0, 1, [], 0, false⟩
        ⟨rfl, rfl, rfl, rfl, fun k => ⟨rfl, rfl, rfl⟩, fun k => by cases k <;> rfl⟩
      with ⟨hn1, hn2⟩ | ⟨s1, t1, hs1, ht1, hst⟩
    · rw [hn1, hn2]
      exact ⟨rfl, fun r1 r2 h1 => absurd h1 (by simp)⟩
    · rw [hs1, ht1]
      obtain ⟨hl, hcur, hf, hlen, hfields, hint⟩ := hst
      refine ⟨rfl, ?_⟩
      intro r1 r2 h1 h2
      cases h1
      cases h2
      exact ⟨by rw [hf], hl, rfl, rfl, hlen, hfields, hint⟩

/-- Witness for C7: on the 3×3 ring both runs succeed, report the same hole
    count 1 for the single blob, and the count-only run materialises no
    internal contour. -/
theorem c7_extract_flag_invariance_witness :
    (find_blobs allocOK 40 0 0 3 3 maskRing 3 3 zeroLabel 0 0 true).isSome
      = true ∧
    (((find_blobs allocOK 40 0 0 3 3 maskRing 3 3 zeroLabel 0 0
        true).getD noResult).blobs.getD 0 zeroBlob).internal_count =
      (((find_blobs allocOK 40 0 0 3 3 maskRing 3 3 zeroLabel 0 0
        false).getD noResult).blobs.getD 0 zeroBlob).internal_count ∧
    (((find_blobs allocOK 40 0 0 3 3 maskRing 3 3 zeroLabel 0 0
        false).getD noResult).blobs.getD 0 zeroBlob).internal = [] :=
  ⟨by decide,
   (((c7_extract_flag_invariance 40 0 0 3 3 maskRing 3 3 zeroLabel 0 0).2 _ _
     (some_getD _ noResult (by decide))
     (some_getD _ noResult (by decide))).2.2.2.2.2.1 0).2.2,
   ((c7_extract_flag_invariance 40 0 0 3 3 maskRing 3 3 zeroLabel 0 0).2 _ _
     (some_getD _ noResult (by decide))
     (some_getD _ noResult (by decide))).2.2.2.2.2.2 0⟩

/-! ## Claim C5 machinery -/

/-- If every one of the 8 neighbour directions of `(x0, y0)` is out of the
    ROI or background, the inner scan rejects them all and reports no
    foreground neighbour. -/
theorem traceScan_rejected (mask : Mask) (rx ry rw rh cur x0 y0 : Int)
    (hrej : ∀ d, d < 8 →
      x0 + dx d < 0 ∨ rw ≤ x0 + dx d ∨ y0 + dy d < 0 ∨ rh ≤ y0 + dy d ∨
      mask (rx + (x0 + dx d)) (ry + (y0 + dy d)) = 0) :
    ∀ (steps : Nat) (label : Int → Int) (i : Nat), i < 8 →
    ∃ label'' i'', traceScan mask rx ry rw rh cur x0 y0 label i steps =
      (label'', i'', none) := by
  intro steps
  induction steps with
  | zero =>
    intro label i _
    exact ⟨label, i, rfl⟩
  | succ steps ih =>
    intro label i hi
    simp only [traceScan]
    by_cases hoor : x0 + dx i < 0 ∨ rw ≤ x0 + dx i ∨ y0 + dy i < 0 ∨ rh ≤ y0 + dy i
    · rw [if_pos hoor]
      exact ih label ((i + 1) % 8) (Nat.mod_lt _ (by norm_num))
    · rw [if_neg hoor]
      have hbg : mask (rx + (x0 + dx i)) (ry + (y0 + dy i)) = 0 := by
        rcases hrej i hi with h | h | h | h | h
        · exact absurd (Or.inl h) hoor
        · exact absurd (Or.inr (Or.inl h)) hoor
        · exact absurd (Or.inr (Or.inr (Or.inl h))) hoor
        · exact absurd (Or.inr (Or.inr (Or.inr h))) hoor
        · exact h
      rw [if_neg (show ¬mask (rx + (x0 + dx i)) (ry + (y0 + dy i)) ≠ 0 from
        fun hc => hc hbg)]
      exact ih _ ((i + 1) % 8) (Nat.mod_lt _ (by norm_num))

/-- An isolated start pixel: the walk appends exactly the start point (in
    absolute coordinates) and terminates on the first iteration. -/
theorem contour_trace_isolated (external : Bool) (mask : Mask)
    (cur x y rx ry rw rh : Int) (label : Int → Int) (aIdx fuel : Nat)
    (hrej : ∀ d, d < 8 →
      x + dx d < 0 ∨ rw ≤ x + dx d ∨ y + dy d < 0 ∨ rh ≤ y + dy d ∨
      mask (rx + (x + dx d)) (ry + (y + dy d)) = 0) :
    ∃ label', contour_trace allocOK external cur x y rx ry rw rh mask label
      (some emptyContour) aIdx (fuel + 1) =
      some (true, label', some ⟨[(rx + x, ry + y)], 32⟩, aIdx + 1) := by
  obtain ⟨label'', i'', hsc⟩ := traceScan_rejected mask rx ry rw rh cur x y hrej
    8 (setL label (x + rw * y) cur) (if external then 7 else 3)
    (by cases external <;> simp)
  refine ⟨label'', ?_⟩
  unfold contour_trace
  simp only [traceLoop]
  rw [show appendOpt allocOK aIdx (some emptyContour) (rx + x) (ry + y) =
    (true, some ⟨[(rx + x, ry + y)], 32⟩, aIdx + 1) from rfl]
  rw [hsc]

/-- With allocations succeeding, a walk starting in the ROI appends its
    (absolute-coordinate) start point and then only points inside the
    absolute ROI rectangle. -/
theorem traceLoop_allocOK_points (mask : Mask) (rx ry rw rh cur x y : Int) :
    ∀ (fuel : Nat) (x0 y0 xx yy : Int) (i : Nat) (label : Int → Int)
      (c : contour_t) (aIdx : Nat) (ret : Bool) (label' : Int → Int)
      (contour' : Option contour_t) (aIdx' : Nat),
      i < 8 → 0 ≤ x0 → x0 < rw → 0 ≤ y0 → y0 < rh →
      traceLoop allocOK mask rx ry rw rh cur x y x0 y0 xx yy i label (some c)
        aIdx fuel = some (ret, label', contour', aIdx') →
      ∃ c' extra, contour' = some c' ∧
        c'.points = c.points ++ (rx + x0, ry + y0) :: extra ∧
        ∀ q ∈ extra, rx ≤ q.1 ∧ q.1 < rx + rw ∧ ry ≤ q.2 ∧ q.2 < ry + rh := by
  intro fuel
  induction fuel with
  | zero =>
    intro x0 y0 xx yy i label c aIdx ret label' contour' aIdx' _ _ _ _ _ h
    exact Option.noConfusion h
  | succ fuel ihf =>
    intro x0 y0 xx yy i label c aIdx ret label' contour' aIdx'
      hi hx1 hx2 hy1 hy2 h
    simp only [traceLoop] at h
    obtain ⟨a₂, happ⟩ := appendOpt_allocOK c aIdx (rx + x0) (ry + y0)
    rw [happ] at h
    dsimp only at h
    rcases hsc : traceScan mask rx ry rw rh cur x0 y0 label i 8 with
      ⟨label₁, i₁, found⟩
    rw [hsc] at h
    cases found with
    | none =>
      dsimp only at h
      injection h with h'
      injection h' with h1 h'
      injection h' with h2 h'
      injection h' with h3 h4
      refine ⟨appendedC c (rx + x0) (ry + y0), [], h3.symm, ?_, by simp⟩
      simp [appendedC]
    | some q =>
      obtain ⟨x1, y1⟩ := q
      dsimp only at h
      obtain ⟨d, _, _, _, hb1, hb2, hb3, hb4, _⟩ :=
        (traceScan_spec mask rx ry rw rh cur x0 y0 8 label i hi).2 x1 y1
          (by rw [hsc])
      have hnext : nextSearchStart i₁ < 8 := nextSearchStart_lt i₁
      have hrec : ∀ xx' yy',
          traceLoop allocOK mask rx ry rw rh cur x y x1 y1 xx' yy'
            (nextSearchStart i₁) label₁ (some (appendedC c (rx + x0) (ry + y0)))
            a₂ fuel = some (ret, label', contour', aIdx') →
          ∃ c' extra, contour' = some c' ∧
            c'.points = c.points ++ (rx + x0, ry + y0) :: extra ∧
            ∀ q ∈ extra, rx ≤ q.1 ∧ q.1 < rx + rw ∧ ry ≤ q.2 ∧ q.2 < ry + rh := by
        intro xx' yy' hr
        obtain ⟨c', extra', hc', hpts, hmem⟩ := ihf x1 y1 xx' yy'
          (nextSearchStart i₁) label₁ (appendedC c (rx + x0) (ry + y0)) a₂
          ret label' contour' aIdx' hnext hb1 hb2 hb3 hb4 hr
        refine ⟨c', (rx + x1, ry + y1) :: extra', hc', ?_, ?_⟩
        · rw [hpts]
          simp [appendedC]
        · intro q hq
          rcases List.mem_cons.mp hq with hq | hq
          · subst hq
            exact ⟨by omega, by omega, by omega, by omega⟩
          · exact hmem q hq
      by_cases hfirst : xx < 0 ∧ yy < 0
      · rw [if_pos hfirst] at h
        exact hrec x1 y1 h
      rw [if_neg hfirst] at h
      by_cases hdone : x = x0 ∧ xx = x1 ∧ y = y0 ∧ yy = y1
      · rw [if_pos hdone] at h
        injection h with h'
        injection h' with h1 h'
        injection h' with h2 h'
        injection h' with h3 h4
        refine ⟨appendedC c (rx + x0) (ry + y0), [], h3.symm, ?_, by simp⟩
        simp [appendedC]
      · rw [if_neg hdone] at h
        exact hrec xx yy h

/-- A traced contour that started from an empty contour record is nonempty
    and lies inside the absolute ROI rectangle. -/
theorem contour_trace_allocOK_points (external : Bool) (mask : Mask)
    (cur x y rx ry rw rh : Int) (label : Int → Int) (aIdx fuel : Nat)
    (ret : Bool) (label' : Int → Int) (contour' : Option contour_t)
    (aIdx' : Nat)
    (hx1 : 0 ≤ x) (hx2 : x < rw) (hy1 : 0 ≤ y) (hy2 : y < rh)
    (h : contour_trace allocOK external cur x y rx ry rw rh mask label
      (some emptyContour) aIdx fuel = some (ret, label', contour', aIdx')) :
    ∃ c', contour' = some c' ∧ c'.points ≠ [] ∧
      ∀ q ∈ c'.points, rx ≤ q.1 ∧ q.1 < rx + rw ∧ ry ≤ q.2 ∧ q.2 < ry + rh := by
  unfold contour_trace at h
  obtain ⟨c', extra, hc', hpts, hmem⟩ :=
    traceLoop_allocOK_points mask rx ry rw rh cur x y fuel x y (-1) (-1)
      (if external then 7 else 3) (setL label (x + rw * y) cur) emptyContour
      aIdx ret label' contour' aIdx' (by cases external <;> simp)
      hx1 hx2 hy1 hy2 h
  refine ⟨c', hc', ?_, ?_⟩
  · rw [hpts]
    simp [emptyContour]
  · intro q hq
    rw [hpts] at hq
    simp only [emptyContour, List.nil_append, List.mem_cons] at hq
    rcases hq with hq | hq
    · subst hq
      exact ⟨by omega, by omega, by omega, by omega⟩
    · exact hmem q hq

/-- Scan invariant for C5: every registered blob has a nonempty external
    contour whose points lie in the absolute clamped-ROI rectangle. -/
def extOK (rx ry rw rh : Int) (s : FBState) : Prop :=
  ∀ k, k < s.blobs.length →
    (s.blobs.getD k zeroBlob).external.points ≠ [] ∧
    ∀ q ∈ (s.blobs.getD k zeroBlob).external.points,
      rx ≤ q.1 ∧ q.1 < rx + rw ∧ ry ≤ q.2 ∧ q.2 < ry + rh

/-- With allocations succeeding, case 1 always appends a blob whose external
    contour is the trace's nonempty, in-rectangle contour. -/
theorem case1Step_allocOK_external (fuel : Nat) (mask : Mask)
    (rx ry rw rh : Int) (s : FBState) (i j : Int) (s' : FBState)
    (hx1 : 0 ≤ i) (hx2 : i < rw) (hy1 : 0 ≤ j) (hy2 : j < rh)
    (h : case1Step allocOK fuel mask rx ry rw rh s i j = some s') :
    ∃ e, s'.blobs = s.blobs ++ [⟨s.current, e, [], 0⟩] ∧ e.points ≠ [] ∧
      ∀ q ∈ e.points, rx ≤ q.1 ∧ q.1 < rx + rw ∧ ry ≤ q.2 ∧ q.2 < ry + rh := by
  unfold case1Step at h
  rw [show blob_add allocOK s.aIdx s.blobs =
    (some (s.blobs ++ [zeroBlob]), s.aIdx + 1) from rfl] at h
  dsimp only at h
  cases hct : contour_trace allocOK true s.current i j rx ry rw rh mask s.label
      (some emptyContour) (s.aIdx + 1) fuel with
  | none => rw [hct] at h; exact Option.noConfusion h
  | some t =>
    obtain ⟨ret, label', contour', a''⟩ := t
    obtain ⟨c', hc', hne, hmem⟩ := contour_trace_allocOK_points true mask
      s.current i j rx ry rw rh s.label (s.aIdx + 1) fuel ret label' contour'
      a'' hx1 hx2 hy1 hy2 hct
    rw [hct] at h
    simp only [getD_append_len, set_append_len] at h
    cases h
    refine ⟨c', ?_, hne, hmem⟩
    dsimp only
    rw [hc']
    rfl

/-- With allocations succeeding, a scan step never raises the failure flag. -/
theorem scanStep_allocOK_failed (fuel : Nat) (mask : Mask) (rx ry rw rh : Int)
    (ext : Bool) (s : FBState) (p : Int × Int) (s' : FBState)
    (h : scanStep allocOK fuel mask rx ry rw rh ext s p = some s')
    (hf : s.failed = false) : s'.failed = false := by
  simp only [scanStep] at h
  rw [if_neg (show ¬s.failed = true from by rw [hf]; exact Bool.false_ne_true)]
    at h
  by_cases hm : mask (rx + p.1) (ry + p.2) = 0
  · rw [if_pos hm] at h; cases h; exact hf
  rw [if_neg hm] at h
  by_cases h1 : s.label (p.1 + rw * p.2) = 0 ∧
      (if 0 < p.2 then mask (rx + p.1) (ry + p.2 - 1) else 0) = 0
  · rw [if_pos h1] at h
    unfold case1Step at h
    rw [show blob_add allocOK s.aIdx s.blobs =
      (some (s.blobs ++ [zeroBlob]), s.aIdx + 1) from rfl] at h
    dsimp only at h
    cases hct : contour_trace allocOK true s.current p.1 p.2 rx ry rw rh mask
        s.label (some emptyContour) (s.aIdx + 1) fuel with
    | none => rw [hct] at h; exact Option.noConfusion h
    | some t =>
      obtain ⟨ret, label', contour', a''⟩ := t
      rw [hct] at h
      cases h
      rfl
  rw [if_neg h1] at h
  by_cases h2 : (if p.2 < rh - 1 then mask (rx + p.1) (ry + p.2 + 1) else 0) = 0 ∧
      (if p.2 < rh - 1 then s.label (p.1 + rw * p.2 + rw) else -1) = 0
  · rw [if_pos h2] at h
    unfold case2Step at h
    by_cases hg : 1 ≤ (if s.label (p.1 + rw * p.2) ≠ 0 then
        s.label (p.1 + rw * p.2) else s.label (p.1 + rw * p.2 - 1)) ∧
        (if s.label (p.1 + rw * p.2) ≠ 0 then s.label (p.1 + rw * p.2)
          else s.label (p.1 + rw * p.2 - 1)) ≤ (s.blobs.length : Int)
    · rw [if_pos hg] at h
      cases ext with
      | true =>
        rw [if_pos rfl] at h
        unfold blob_add_internal at h
        rw [if_pos (show allocOK s.aIdx = true from rfl)] at h
        dsimp only at h
        cases hct : contour_trace allocOK false
            (if s.label (p.1 + rw * p.2) ≠ 0 then s.label (p.1 + rw * p.2)
              else s.label (p.1 + rw * p.2 - 1)) p.1 p.2 rx ry rw rh mask
            s.label (some emptyContour) (s.aIdx + 1) fuel with
        | none => rw [hct] at h; exact Option.noConfusion h
        | some t =>
          obtain ⟨ret, label', contour', a''⟩ := t
          rw [hct] at h
          cases h
          exact hf
      | false =>
        rw [if_neg (show ¬(false : Bool) = true from by simp)] at h
        dsimp only at h
        cases hct : contour_trace allocOK false
            (if s.label (p.1 + rw * p.2) ≠ 0 then s.label (p.1 + rw * p.2)
              else s.label (p.1 + rw * p.2 - 1)) p.1 p.2 rx ry rw rh mask
            s.label none (s.aIdx) fuel with
        | none => rw [hct] at h; exact Option.noConfusion h
        | some t =>
          obtain ⟨ret, label', contour', a''⟩ := t
          rw [hct] at h
          cases h
          exact hf
    · rw [if_neg hg] at h
      exact Option.noConfusion h
  rw [if_neg h2] at h
  by_cases h3 : s.label (p.1 + rw * p.2) = 0
  · rw [if_pos h3] at h
    cases h
    exact hf
  · rw [if_neg h3] at h
    cases h
    exact hf

/-- A scan step preserves the C5 invariant. -/
theorem scanStep_extOK (fuel : Nat) (mask : Mask) (rx ry rw rh : Int)
    (ext : Bool) (s : FBState) (p : Int × Int) (s' : FBState)
    (hx1 : 0 ≤ p.1) (hx2 : p.1 < rw) (hy1 : 0 ≤ p.2) (hy2 : p.2 < rh)
    (h : scanStep allocOK fuel mask rx ry rw rh ext s p = some s')
    (hP : extOK rx ry rw rh s) : extOK rx ry rw rh s' := by
  simp only [scanStep] at h
  by_cases h0 : s.failed = true
  · rw [if_pos h0] at h; cases h; exact hP
  rw [if_neg h0] at h
  by_cases hm : mask (rx + p.1) (ry + p.2) = 0
  · rw [if_pos hm] at h; cases h; exact hP
  rw [if_neg hm] at h
  by_cases h1 : s.label (p.1 + rw * p.2) = 0 ∧
      (if 0 < p.2 then mask (rx + p.1) (ry + p.2 - 1) else 0) = 0
  · rw [if_pos h1] at h
    obtain ⟨e, hb, hne, hmem⟩ := case1Step_allocOK_external fuel mask rx ry rw
      rh s p.1 p.2 s' hx1 hx2 hy1 hy2 h
    intro k hk
    rw [hb] at hk ⊢
    rw [List.length_append, List.length_singleton] at hk
    rcases Nat.lt_or_ge k s.blobs.length with hlt | hge
    · rw [getD_append_lt _ _ _ _ hlt]
      exact hP k hlt
    · have hke : k = s.blobs.length := by omega
      subst hke
      rw [getD_append_len]
      exact ⟨hne, hmem⟩
  rw [if_neg h1] at h
  by_cases h2 : (if p.2 < rh - 1 then mask (rx + p.1) (ry + p.2 + 1) else 0) = 0 ∧
      (if p.2 < rh - 1 then s.label (p.1 + rw * p.2 + rw) else -1) = 0
  · rw [if_pos h2] at h
    rcases case2Step_blobs _ _ _ _ _ _ _ _ _ _ _ _ _ h with ⟨hb, _⟩ |
      ⟨bi, c, hbi, _, hcase⟩
    · intro k hk
      rw [hb] at hk ⊢
      exact hP k hk
    · rcases hcase with ⟨_, hb⟩ | ⟨_, hb⟩ <;>
      · intro k hk
        rw [hb] at hk ⊢
        rw [List.length_set] at hk
        by_cases hkbi : bi = k
        · subst hkbi
          rw [getD_set_self _ _ _ _ hbi]
          exact hP bi hbi
        · rw [getD_set_ne _ _ _ _ _ hkbi]
          exact hP k hk
  rw [if_neg h2] at h
  by_cases h3 : s.label (p.1 + rw * p.2) = 0
  · rw [if_pos h3] at h
    cases h
    intro k hk
    exact hP k hk
  · rw [if_neg h3] at h
    cases h
    exact hP

/-- The raster-scan order splits at any ROI pixel: everything scanned before
    it has a strictly smaller flat offset. -/
theorem pixels_split (rw rh x y : Int) (hx1 : 0 ≤ x) (hx2 : x < rw)
    (hy1 : 0 ≤ y) (hy2 : y < rh) :
    ∃ pre suf, pixels rw rh = pre ++ (x, y) :: suf ∧
      ∀ q ∈ pre, 0 ≤ q.1 ∧ q.1 < rw ∧ 0 ≤ q.2 ∧ q.2 < rh ∧
        q.1 + rw * q.2 < x + rw * y := by
  have hW : 0 < rw.toNat := by omega
  have hH : 0 < rh.toNat := by omega
  have hxW : x.toNat < rw.toNat := by omega
  have hyH : y.toNat < rh.toNat := by omega
  set W := rw.toNat with hWdef
  set n₀ := x.toNat + W * y.toNat with hn₀
  have hn₀N : n₀ < rh.toNat * W := by
    calc n₀ < W + W * y.toNat := by omega
      _ = W * (y.toNat + 1) := by ring
      _ ≤ W * rh.toNat := Nat.mul_le_mul_left W (by omega)
      _ = rh.toNat * W := Nat.mul_comm _ _
  obtain ⟨m, hm⟩ : ∃ m, rh.toNat * W = n₀ + (m + 1) :=
    ⟨rh.toNat * W - n₀ - 1, by omega⟩
  refine ⟨(List.range n₀).map fun n =>
      (((n % W : Nat) : Int), ((n / W : Nat) : Int)),
    ((List.range m).map fun t => n₀ + Nat.succ t).map
      fun n => (((n % W : Nat) : Int), ((n / W : Nat) : Int)), ?_, ?_⟩
  · unfold pixels
    rw [← hWdef, hm, List.range_add, List.range_succ_eq_map,
      List.map_append, List.map_cons, List.map_map, List.map_map]
    have h2 : ((n₀ % W : Nat) : Int) = x := by
      rw [hn₀, Nat.add_mul_mod_self_left x.toNat W y.toNat,
        Nat.mod_eq_of_lt hxW]
      omega
    have h3 : ((n₀ / W : Nat) : Int) = y := by
      rw [hn₀, Nat.add_mul_div_left x.toNat y.toNat hW,
        Nat.div_eq_of_lt hxW]
      omega
    simp only [List.map_cons, List.map_map, Function.comp_def, Nat.add_zero,
      h2, h3]
  · intro q hq
    rcases List.mem_map.mp hq with ⟨n, hn, rfl⟩
    have hnlt : n < n₀ := List.mem_range.mp hn
    have hmod : n % W < W := Nat.mod_lt _ hW
    have hdiv : n / W < rh.toNat := by
      exact Nat.div_lt_iff_lt_mul hW |>.mpr (by omega)
    have hrwW : (W : Int) = rw := by omega
    refine ⟨Int.ofNat_nonneg _, by omega, Int.ofNat_nonneg _, by omega, ?_⟩
    have hNat : n % W + W * (n / W) = n := Nat.mod_add_div n W
    have hoff : ((n % W : Nat) : Int) + rw * ((n / W : Nat) : Int) = (n : Int) := by
      rw [← hrwW]
      exact_mod_cast hNat
    have hoff0 : ((n₀ : Nat) : Int) = x + rw * y := by
      rw [hn₀]
      push_cast
      rw [Int.toNat_of_nonneg hx1, Int.toNat_of_nonneg hy1, hrwW]
    dsimp only
    rw [hoff, ← hoff0]
    exact_mod_cast hnlt

/-- Before the scan reaches an isolated foreground pixel, no step raises the
    failure flag, lowers the running label below 1, or touches that pixel's
    label cell. -/
theorem scanStep_iso_inv (fuel : Nat) (mask : Mask) (rx ry rw rh : Int)
    (ext : Bool) (x y : Int)
    (hfg : mask (rx + x) (ry + y) ≠ 0)
    (hiso : ∀ x2 y2, 0 ≤ x2 → x2 < rw → 0 ≤ y2 → y2 < rh →
      x2 - x ≤ 1 → x - x2 ≤ 1 → y2 - y ≤ 1 → y - y2 ≤ 1 →
      (x2 ≠ x ∨ y2 ≠ y) → mask (rx + x2) (ry + y2) = 0)
    (hx1 : 0 ≤ x) (hx2 : x < rw) (hy1 : 0 ≤ y) (hy2 : y < rh)
    (t t' : FBState) (q : Int × Int)
    (hqb1 : 0 ≤ q.1) (hqb2 : q.1 < rw) (hqb3 : 0 ≤ q.2) (hqb4 : q.2 < rh)
    (hqoff : q.1 + rw * q.2 < x + rw * y)
    (h : scanStep allocOK fuel mask rx ry rw rh ext t q = some t')
    (hP : t.failed = false ∧ 1 ≤ t.current ∧ t.label (x + rw * y) = 0) :
    t'.failed = false ∧ 1 ≤ t'.current ∧ t'.label (x + rw * y) = 0 := by
  obtain ⟨hPf, hPc, hP0⟩ := hP
  refine ⟨scanStep_allocOK_failed fuel mask rx ry rw rh ext t q t' h hPf,
    ?_, ?_⟩
  · rcases scanStep_label allocOK fuel mask rx ry rw rh ext t q t'
      hqb1 hqb2 hqb3 hqb4 hPc h with ⟨_, hcur⟩ |
      ⟨_, ⟨cur, _, _, hcc⟩ | ⟨_, hcc, _⟩⟩
    · omega
    · rcases hcc with ⟨_, hcc⟩ | ⟨_, hcc⟩ <;> omega
    · omega
  · rcases scanStep_label allocOK fuel mask rx ry rw rh ext t q t'
      hqb1 hqb2 hqb3 hqb4 hPc h with ⟨hlab, _⟩ |
      ⟨_, ⟨cur, _, hw, _⟩ | ⟨_, _, v, hset, _⟩⟩
    · rw [hlab]
      exact hP0
    · by_cases hchg : t'.label (x + rw * y) = t.label (x + rw * y)
      · rw [hchg]
        exact hP0
      · exfalso
        obtain ⟨x1, y1, hdec, b1, b2, b3, b4, cls⟩ := hw _ hchg
        obtain ⟨hex, hey⟩ := offset_inj (show (0:Int) < rw by omega)
          hx1 hx2 b1 b2 hdec
        subst hex
        subst hey
        rcases cls with ⟨hmfg, _, ⟨hq1, hq2⟩ | hadj⟩ | ⟨hm0, _⟩
        · rw [hq1, hq2] at hqoff
          exact absurd hqoff (lt_irrefl _)
        · obtain ⟨x2, y2, c1, c2, c3, c4, hm2, hne, d1, d2, d3, d4⟩ := hadj
          exact hm2 (hiso x2 y2 c1 c2 c3 c4 (by omega) (by omega) (by omega)
            (by omega) (by
              rcases hne with hne | hne
              · exact Or.inl hne
              · exact Or.inr hne))
        · exact hfg hm0
    · rw [hset]
      simp only [setL]
      rw [if_neg (show ¬x + rw * y = q.1 + rw * q.2 from by
        intro he
        rw [he] at hqoff
        exact lt_irrefl _ hqoff)]
      exact hP0

/-- Scanning an isolated foreground pixel whose label cell is still 0 fires
    case 1 and appends a blob whose external contour is exactly the single
    absolute-coordinate point of that pixel. -/
theorem scanStep_isolated_append (fuel : Nat) (mask : Mask) (rx ry rw rh : Int)
    (ext : Bool) (x y : Int) (s s' : FBState)
    (hx1 : 0 ≤ x) (hx2 : x < rw) (hy1 : 0 ≤ y) (hy2 : y < rh)
    (hfg : mask (rx + x) (ry + y) ≠ 0)
    (hiso : ∀ x2 y2, 0 ≤ x2 → x2 < rw → 0 ≤ y2 → y2 < rh →
      x2 - x ≤ 1 → x - x2 ≤ 1 → y2 - y ≤ 1 → y - y2 ≤ 1 →
      (x2 ≠ x ∨ y2 ≠ y) → mask (rx + x2) (ry + y2) = 0)
    (hf : s.failed = false) (h0 : s.label (x + rw * y) = 0)
    (h : scanStep allocOK fuel mask rx ry rw rh ext s (x, y) = some s') :
    s'.blobs = s.blobs ++ [⟨s.current, ⟨[(rx + x, ry + y)], 32⟩, [], 0⟩] := by
  have habove : (if 0 < y then mask (rx + x) (ry + y - 1) else 0) = 0 := by
    by_cases hy0 : 0 < y
    · rw [if_pos hy0, show ry + y - 1 = ry + (y - 1) from by ring]
      exact hiso x (y - 1) hx1 hx2 (by omega) (by omega) (by omega) (by omega)
        (by omega) (by omega) (Or.inr (by omega))
    · rw [if_neg hy0]
  simp only [scanStep] at h
  rw [if_neg (show ¬s.failed = true from by rw [hf]; exact Bool.false_ne_true)]
    at h
  rw [if_neg hfg] at h
  rw [if_pos ⟨h0, habove⟩] at h
  have hrej : ∀ d, d < 8 →
      x + dx d < 0 ∨ rw ≤ x + dx d ∨ y + dy d < 0 ∨ rh ≤ y + dy d ∨
      mask (rx + (x + dx d)) (ry + (y + dy d)) = 0 := by
    intro d hd
    by_cases hoor : x + dx d < 0 ∨ rw ≤ x + dx d ∨ y + dy d < 0 ∨ rh ≤ y + dy d
    · rcases hoor with ho | ho | ho | ho
      · exact Or.inl ho
      · exact Or.inr (Or.inl ho)
      · exact Or.inr (Or.inr (Or.inl ho))
      · exact Or.inr (Or.inr (Or.inr (Or.inl ho)))
    · push_neg at hoor
      obtain ⟨g1, g2, g3, g4⟩ := hoor
      have hne := dxdy_ne_zero d hd
      have hdxb := dx_bounds d hd
      have hdyb := dy_bounds d hd
      refine Or.inr (Or.inr (Or.inr (Or.inr ?_)))
      refine hiso (x + dx d) (y + dy d) g1 g2 g3 g4 (by omega) (by omega)
        (by omega) (by omega) ?_
      by_cases hdx : dx d = 0
      · exact Or.inr (fun hc => hne ⟨hdx, by omega⟩)
      · exact Or.inl (fun hc => hdx (by omega))
  cases fuel with
  | zero =>
    exfalso
    unfold case1Step at h
    rw [show blob_add allocOK s.aIdx s.blobs =
      (some (s.blobs ++ [zeroBlob]), s.aIdx + 1) from rfl] at h
    dsimp only at h
    rw [show contour_trace allocOK true s.current x y rx ry rw rh mask s.label
      (some emptyContour) (s.aIdx + 1) 0 = none from rfl] at h
    exact Option.noConfusion h
  | succ fuel' =>
    obtain ⟨label', hct⟩ := contour_trace_isolated true mask s.current x y
      rx ry rw rh s.label (s.aIdx + 1) fuel' hrej
    unfold case1Step at h
    rw [show blob_add allocOK s.aIdx s.blobs =
      (some (s.blobs ++ [zeroBlob]), s.aIdx + 1) from rfl] at h
    dsimp only at h
    rw [hct] at h
    simp only [getD_append_len, set_append_len] at h
    cases h
    rfl

/-- Once a blob's external contour is fixed, later scan steps never change
    it or shrink the registry. -/
theorem scanStep_extFixed (alloc : Alloc) (fuel : Nat) (mask : Mask)
    (rx ry rw rh : Int) (ext : Bool) (s s' : FBState) (q : Int × Int)
    (k₀ : Nat) (e : contour_t)
    (h : scanStep alloc fuel mask rx ry rw rh ext s q = some s')
    (hk : k₀ < s.blobs.length)
    (he : (s.blobs.getD k₀ zeroBlob).external = e) :
    k₀ < s'.blobs.length ∧ (s'.blobs.getD k₀ zeroBlob).external = e := by
  rcases scanStep_blobs _ _ _ _ _ _ _ _ _ _ _ h with ⟨hb, _⟩ | ⟨c, hb, _⟩ |
    ⟨bi, c, hbi, _, hcase⟩
  · rw [hb]
    exact ⟨hk, he⟩
  · rw [hb]
    constructor
    · rw [List.length_append, List.length_singleton]
      omega
    · rw [getD_append_lt _ _ _ _ hk]
      exact he
  · rcases hcase with ⟨_, hb⟩ | ⟨_, hb⟩ <;>
    · rw [hb]
      refine ⟨by rw [List.length_set]; exact hk, ?_⟩
      by_cases hkbi : bi = k₀
      · subst hkbi
        rw [getD_set_self _ _ _ _ hbi]
        exact he
      · rw [getD_set_ne _ _ _ _ _ hkbi]
        exact he

/-! ## Claim C5 -/

/-- C5: with all allocations succeeding, every blob returned by `find_blobs`
    has a nonempty external contour whose points all lie in the absolute
    (source-raster) rectangle of the clamped ROI — the ROI offset is added
    back onto each traced position — and a single isolated foreground pixel
    (all 8 in-ROI neighbours background) yields a blob whose external
    contour is exactly the one absolute-coordinate point of that pixel. -/
theorem c5_external_contours :
    ∀ (fuel : Nat) (roi_x roi_y roi_w roi_h : Int) (mask : Mask)
      (in_w in_h : Int) (label0 : Int → Int) (lw0 lh0 : Int) (ext : Bool)
      (rx ry rw rh : Int) (r : FBResult),
      clampROI roi_x roi_y roi_w roi_h in_w in_h = some (rx, ry, rw, rh) →
      find_blobs allocOK fuel roi_x roi_y roi_w roi_h mask in_w in_h
        label0 lw0 lh0 ext = some r →
      (∀ k, k < r.blobs.length →
        (r.blobs.getD k zeroBlob).external.points ≠ [] ∧
        ∀ q ∈ (r.blobs.getD k zeroBlob).external.points,
          rx ≤ q.1 ∧ q.1 < rx + rw ∧ ry ≤ q.2 ∧ q.2 < ry + rh) ∧
      (∀ x y, 0 ≤ x → x < rw → 0 ≤ y → y < rh →
        mask (rx + x) (ry + y) ≠ 0 →
        (∀ x2 y2, 0 ≤ x2 → x2 < rw → 0 ≤ y2 → y2 < rh →
          x2 - x ≤ 1 → x - x2 ≤ 1 → y2 - y ≤ 1 → y - y2 ≤ 1 →
          (x2 ≠ x ∨ y2 ≠ y) → mask (rx + x2) (ry + y2) = 0) →
        ∃ k, k < r.blobs.length ∧
          (r.blobs.getD k zeroBlob).external.points = [(rx + x, ry + y)]) := by
  intro fuel roi_x roi_y roi_w roi_h mask in_w in_h label0 lw0 lh0 ext
    rx ry rw rh r hc hfind
  rcases find_blobs_inversion hfind with ⟨hc', _⟩ |
    ⟨rx', ry', rw', rh', sf, hc', hrun, hr⟩
  · rw [hc'] at hc
    exact Option.noConfusion hc
  rw [hc'] at hc
  injection hc with hc
  injection hc with he1 hc
  injection hc with he2 hc
  injection hc with he3 he4
  rw [he1, he2, he3, he4] at hrun
  subst hr
  constructor
  · intro k hk
    refine runScan_inv _ (extOK rx ry rw rh) (pixels rw rh) _ sf ?_ hrun ?_ k hk
    · intro q t t' hq hstep hP
      obtain ⟨b1, b2, b3, b4⟩ := pixels_mem hq
      exact scanStep_extOK fuel mask rx ry rw rh ext t q t' b1 b2 b3 b4
        hstep hP
    · intro k' hk'
      exact absurd hk' (by simp)
  · intro x y hx1 hx2 hy1 hy2 hfg hiso
    obtain ⟨pre, suf, hsplit, hpre⟩ := pixels_split rw rh x y hx1 hx2 hy1 hy2
    rw [hsplit, runScan_append] at hrun
    cases hA : runScan (scanStep allocOK fuel mask rx ry rw rh ext)
        ⟨fun _ => 0, 1, [], 0, false⟩ pre with
    | none =>
      rw [hA] at hrun
      exact absurd hrun (by simp)
    | some s₁ =>
      rw [hA, Option.some_bind] at hrun
      simp only [runScan] at hrun
      cases hB : scanStep allocOK fuel mask rx ry rw rh ext s₁ (x, y) with
      | none =>
        rw [hB] at hrun
        exact absurd hrun (by simp)
      | some s₂ =>
        rw [hB] at hrun
        have hP₁ : s₁.failed = false ∧ 1 ≤ s₁.current ∧
            s₁.label (x + rw * y) = 0 := by
          refine runScan_inv _ (fun t => t.failed = false ∧ 1 ≤ t.current ∧
            t.label (x + rw * y) = 0) pre _ s₁ ?_ hA ⟨rfl, le_refl 1, rfl⟩
          intro q t t' hq hstep hP
          obtain ⟨b1, b2, b3, b4, b5⟩ := hpre q hq
          exact scanStep_iso_inv fuel mask rx ry rw rh ext x y hfg hiso
            hx1 hx2 hy1 hy2 t t' q b1 b2 b3 b4 b5 hstep hP
        have hB' := scanStep_isolated_append fuel mask rx ry rw rh ext x y
          s₁ s₂ hx1 hx2 hy1 hy2 hfg hiso hP₁.1 hP₁.2.2 hB
        have hk₀ : s₁.blobs.length < s₂.blobs.length := by
          rw [hB', List.length_append, List.length_singleton]
          omega
        have he₀ : (s₂.blobs.getD s₁.blobs.length zeroBlob).external =
            ⟨[(rx + x, ry + y)], 32⟩ := by
          rw [hB', getD_append_len]
        have hQ : s₁.blobs.length < sf.blobs.length ∧
            (sf.blobs.getD s₁.blobs.length zeroBlob).external =
              ⟨[(rx + x, ry + y)], 32⟩ := by
          refine runScan_inv _ (fun t => s₁.blobs.length < t.blobs.length ∧
            (t.blobs.getD s₁.blobs.length zeroBlob).external =
              ⟨[(rx + x, ry + y)], 32⟩) suf _ sf ?_ hrun ⟨hk₀, he₀⟩
          intro q t t' _ hstep hP
          exact scanStep_extFixed allocOK fuel mask rx ry rw rh ext t t' q
            s₁.blobs.length _ hstep hP.1 hP.2
        exact ⟨s₁.blobs.length, hQ.1, by rw [hQ.2]⟩

/-- Witness for C5: the 1×1 all-foreground mask yields one blob whose
    external contour is nonempty and is exactly the single pixel. -/
theorem c5_external_contours_witness :
    (((find_blobs allocOK 10 0 0 1 1 maskDot 1 1 zeroLabel 0 0 true).getD
        noResult).blobs.getD 0 zeroBlob).external.points ≠ [] ∧
    ∃ k, k < ((find_blobs allocOK 10 0 0 1 1 maskDot 1 1 zeroLabel 0 0
        true).getD noResult).blobs.length ∧
      (((find_blobs allocOK 10 0 0 1 1 maskDot 1 1 zeroLabel 0 0 true).getD
        noResult).blobs.getD k zeroBlob).external.points =
        [((0 : Int) + 0, (0 : Int) + 0)] := by
  have hc : clampROI 0 0 1 1 1 1 = some (0, 0, 1, 1) := by decide
  have hfind := some_getD
    (find_blobs allocOK 10 0 0 1 1 maskDot 1 1 zeroLabel 0 0 true) noResult
    (by decide)
  have H := c5_external_contours 10 0 0 1 1 maskDot 1 1 zeroLabel 0 0 true
    0 0 1 1 _ hc hfind
  refine ⟨(H.1 0 (by decide)).1, ?_⟩
  exact H.2 0 0 (by decide) (by decide) (by decide) (by decide) (by decide)
    (by
      intro x2 y2 a1 a2 a3 a4 _ _ _ _ hne
      exfalso
      rcases hne with hn | hn <;> omega)

/-! ## Claim C8 -/

/-- C8 (amended): every label-buffer write of a scan step is disciplined by
    the mask: a changed in-ROI cell is either a foreground cell that now
    holds a positive label, or a background cell that now holds `-1`, or a
    cell that was still 0 (the interior-propagation write); consequently a
    background cell once marked `-1` is never changed again.  (A foreground
    cell's positive label CAN be replaced by a later trace's different
    positive label, as the counterexample shows.) -/
theorem c8_write_discipline :
    ∀ (alloc : Alloc) (fuel : Nat) (mask : Mask) (rx ry rw rh : Int)
      (ext : Bool) (s : FBState) (p : Int × Int) (s' : FBState),
      0 ≤ p.1 → p.1 < rw → 0 ≤ p.2 → p.2 < rh → 1 ≤ s.current →
      scanStep alloc fuel mask rx ry rw rh ext s p = some s' →
      (∀ off, s'.label off ≠ s.label off →
        ∃ x1 y1, off = x1 + rw * y1 ∧ 0 ≤ x1 ∧ x1 < rw ∧ 0 ≤ y1 ∧ y1 < rh ∧
          ((mask (rx + x1) (ry + y1) ≠ 0 ∧
             (1 ≤ s'.label off ∨ s.label off = 0)) ∨
           (mask (rx + x1) (ry + y1) = 0 ∧ s'.label off = -1))) ∧
      (∀ x1 y1, 0 ≤ x1 → x1 < rw → 0 ≤ y1 → y1 < rh →
        mask (rx + x1) (ry + y1) = 0 → s.label (x1 + rw * y1) = -1 →
        s'.label (x1 + rw * y1) = -1) := by
  intro alloc fuel mask rx ry rw rh ext s p s' hx1 hx2 hy1 hy2 hcur h
  have hrw : 0 < rw := by omega
  have part1 : ∀ off, s'.label off ≠ s.label off →
      ∃ x1 y1, off = x1 + rw * y1 ∧ 0 ≤ x1 ∧ x1 < rw ∧ 0 ≤ y1 ∧ y1 < rh ∧
        ((mask (rx + x1) (ry + y1) ≠ 0 ∧
           (1 ≤ s'.label off ∨ s.label off = 0)) ∨
         (mask (rx + x1) (ry + y1) = 0 ∧ s'.label off = -1)) := by
    intro off hoff
    rcases scanStep_label alloc fuel mask rx ry rw rh ext s p s'
        hx1 hx2 hy1 hy2 hcur h with ⟨heq, _⟩ |
        ⟨hm, ⟨cur, hc1, hw, _⟩ | ⟨hold, _, v, hset, _⟩⟩
    · rw [heq] at hoff
      exact absurd rfl hoff
    · rcases hw off hoff with ⟨x1, y1, hdec, b1, b2, b3, b4,
        ⟨hfg, hv, _⟩ | ⟨hbg, hv⟩⟩
      · exact ⟨x1, y1, hdec, b1, b2, b3, b4, Or.inl ⟨hfg, Or.inl (by omega)⟩⟩
      · exact ⟨x1, y1, hdec, b1, b2, b3, b4, Or.inr ⟨hbg, hv⟩⟩
    · rw [hset] at hoff ⊢
      by_cases he : off = p.1 + rw * p.2
      · subst he
        exact ⟨p.1, p.2, rfl, hx1, hx2, hy1, hy2, Or.inl ⟨hm, Or.inr hold⟩⟩
      · exact absurd (by simp [setL, he]) hoff
  refine ⟨part1, ?_⟩
  intro x1 y1 b1 b2 b3 b4 hbg hm1
  by_cases hch : s'.label (x1 + rw * y1) = s.label (x1 + rw * y1)
  · rw [hch]
    exact hm1
  · rcases part1 _ hch with ⟨x1', y1', hdec, c1, c2, c3, c4, hcls⟩
    obtain ⟨hxe, hye⟩ := offset_inj hrw c1 c2 b1 b2 hdec.symm
    rcases hcls with ⟨hfg, _⟩ | ⟨_, hv⟩
    · rw [hxe, hye] at hfg
      exact absurd hbg hfg
    · exact hv

/-- Witness for C8: a concrete scan step on the 3×4 mask after two scanned
    pixels; the background cell (0,0), already marked `-1`, stays `-1`. -/
theorem c8_write_discipline_witness :
    (0 : Int) ≤ 2 ∧ (2 : Int) < 3 ∧ (0 : Int) ≤ 0 ∧ (0 : Int) < 4 ∧
    mask34 0 0 = 0 ∧
    (1 : Int) ≤ ((runScan (scanStep allocOK 60 mask34 0 0 3 4 true)
      ⟨fun _ => 0, 1, [], 0, false⟩ ((pixels 3 4).take 2)).getD
        ⟨fun _ => 0, 1, [], 0, false⟩).current ∧
    ((runScan (scanStep allocOK 60 mask34 0 0 3 4 true)
      ⟨fun _ => 0, 1, [], 0, false⟩ ((pixels 3 4).take 2)).getD
        ⟨fun _ => 0, 1, [], 0, false⟩).label 0 = -1 ∧
    ((scanStep allocOK 60 mask34 0 0 3 4 true
      ((runScan (scanStep allocOK 60 mask34 0 0 3 4 true)
        ⟨fun _ => 0, 1, [], 0, false⟩ ((pixels 3 4).take 2)).getD
          ⟨fun _ => 0, 1, [], 0, false⟩) (2, 0)).getD
        ⟨fun _ => 0, 1, [], 0, false⟩).label 0 = -1 :=
  ⟨by decide, by decide, by decide, by decide, by decide, by decide, by decide,
   (c8_write_discipline allocOK 60 mask34 0 0 3 4 true _ (2, 0) _
     (by decide) (by decide) (by decide) (by decide) (by decide)
     (some_getD _ _ (by decide))).2 0 0
     (by decide) (by decide) (by decide) (by decide) (by decide) (by decide)⟩

/-- Counterexample for C8 as frozen: on `mask34` the foreground cell (2,1)
    (flat offset 5) is set to label 1 while the first blob's external
    contour is traced (after two scanned pixels) and is later overwritten
    with label 2 by the second blob's trace (after eight scanned pixels),
    so a cell set to a positive label is NOT immune to later writes with a
    different value. -/
theorem c8_counterexample :
    mask34 2 1 ≠ 0 ∧
    (runScan (scanStep allocOK 60 mask34 0 0 3 4 true)
        ⟨fun _ => 0, 1, [], 0, false⟩ ((pixels 3 4).take 2)).map
      (fun s => s.label 5) = some 1 ∧
    (runScan (scanStep allocOK 60 mask34 0 0 3 4 true)
        ⟨fun _ => 0, 1, [], 0, false⟩ ((pixels 3 4).take 8)).map
      (fun s => s.label 5) = some 2 := by decide

/-! ## Claim C2 -/

/-- C2 (code bug): the height clamp of `find_blobs` subtracts `roi_h`, not
    `roi_y`, from `in_h`.  For the ROI (0,9,1,2) on a 1×10 raster the code
    yields a clamped height of 8, so the processed region spans rows 9..16,
    which is not contained in the 10-row raster, and differs from the
    intended clamp `in_h - roi_y = 1`. -/
theorem c2_clamp_height_bug :
    clampROI 0 9 1 2 1 10 = some (0, 9, 1, 8) ∧
    (10 : Int) < 9 + 8 ∧ (10 : Int) - 9 ≠ 8 := by decide

/-! ## Claim C4 -/

/-- Allocation oracle on which exactly attempt 1 (the first contour-point
    realloc of the run below) fails. -/
def allocFailPoint : Alloc := fun n => n != 1

/-- C4 (code bug): on a 1×1 foreground mask with the point-array growth
    allocation failing, `find_blobs` still returns 1 (success): the failing
    `contour_trace` result is discarded at line 436.  The run consumed
    allocation attempts 0 and 1, attempt 1 failed, yet `ret = true` and the
    blob's external contour was left empty. -/
theorem c4_alloc_failure_ignored :
    (find_blobs allocFailPoint 10 0 0 1 1 maskDot 1 1 zeroLabel 0 0 false).map
        (fun r => (r.ret, r.aIdx, r.blobs.map (fun b => b.external.points))) =
      some (true, 2, [[]]) ∧
    allocFailPoint 1 = false := by decide

/-! ## Claim C9 -/

/-- C9: on the no-op paths (ROI origin at or past the raster edge, or clamped
    width/height not positive) `find_blobs` returns 1 with `*blobs = NULL`
    and `*count = 0` while `*label`, `*label_w`, `*label_h` keep the
    caller's prior values. -/
theorem c9_noop_frame_effect :
    ∀ (alloc : Alloc) (fuel : Nat) (roi_x roi_y roi_w roi_h : Int) (mask : Mask)
      (in_w in_h : Int) (label0 : Int → Int) (label_w0 label_h0 : Int) (ext : Bool),
      clampROI roi_x roi_y roi_w roi_h in_w in_h = none →
      find_blobs alloc fuel roi_x roi_y roi_w roi_h mask in_w in_h
          label0 label_w0 label_h0 ext =
        some ⟨true, label0, label_w0, label_h0, [], 0⟩ := by
  intro alloc fuel roi_x roi_y roi_w roi_h mask in_w in_h label0 label_w0 label_h0 ext h
  unfold find_blobs
  rw [h]

/-- Witness for C9: a ROI entirely right of a 4×4 raster is a no-op success
    preserving the prior label outputs (7, 42, 43). -/
theorem c9_noop_frame_effect_witness :
    clampROI 5 0 3 3 4 4 = none ∧
    find_blobs allocOK 9 5 0 3 3 (fun _ _ => 1) 4 4 (fun _ => 7) 42 43 true =
      some ⟨true, (fun _ => 7), 42, 43, [], 0⟩ :=
  ⟨by decide,
   c9_noop_frame_effect allocOK 9 5 0 3 3 (fun _ _ => 1) 4 4
     (fun _ => 7) 42 43 true (by decide)⟩

end Blob
